import Mathlib

/-!
# Key resolution and connection registry of package `xkms`

A shallow embedding of `src/xkms/driver.go`.  The package keeps two pieces of
process-wide state, `defaultOptions` and the `engines` map, and talks to three
outside parties: the storage engine (`xorm`), the random source and the
standard library (`net/url`, `strconv`, `encoding/base64`).  The state is
passed explicitly; every outcome of an outside call that the code branches on
is an input of the embedded function (`Env`).
-/

namespace Xkms

/-! ## Data model -/

/-- The `connector` struct: the key of the `engines` map. -/
structure connector where
  Driver : String
  DataSource : String
deriving DecidableEq, Repr

/-- The `Options` struct. -/
structure Options where
  conn : connector
  Table : String
  MasterKeyURL : String
deriving DecidableEq, Repr

/-- The struct `types.SecureString`, as far as the package fills it. -/
structure SecureString where
  URL : String
  Data : String
deriving DecidableEq, Repr

/-- The `SecretKey` struct, the persisted record. -/
structure SecretKey where
  ID : Int
  Key : SecureString
  CreatedUnix : Int
deriving DecidableEq, Repr

/-- A `*xorm.Engine`.  Field `ptr` stands for the identity of the pointer; the
other two fields are the database the engine is connected to. -/
structure Engine where
  ptr : Nat
  DriverName : String
  DataSourceName : String
deriving DecidableEq, Repr

deriving instance DecidableEq for Except

/-- A `[32]byte`: thirty-two bytes, each below 256. -/
def Key32 : Type := { l : List Nat // l.length = 32 ∧ ∀ b ∈ l, b < 256 }

instance : DecidableEq Key32 := by
  unfold Key32
  infer_instance

/-- What `localsecrets.NewKeeper(sk)` returns: a keeper wrapping `sk`. -/
structure Keeper where
  secretKey : Key32
deriving DecidableEq

/-- The pairs `key=value` of a URL query, decoded, in the order they are
written.  It stands for the `url.Values` map that `u.Query()` builds: the
values of one key are the second components of its pairs, in order. -/
abbrev Values : Type := List (String × String)

/-- The fields of a parsed `*url.URL` the package reads. -/
structure URL where
  Host : String
  Path : String
  Query : Values
deriving DecidableEq, Repr

/-- The two causes a `*strconv.NumError` can carry. -/
inductive NumError where
  | ErrSyntax
  | ErrRange
deriving DecidableEq, Repr

/-- The errors the package returns, one constructor per `return` site. -/
inductive Error where
  /-- the error of `url.Parse` -/
  | urlParse (msg : String)
  /-- "could not parse id=%v, err:%v" with `u.Path` and the cause -/
  | couldNotParseId (path : String) (err : NumError)
  /-- "invalid query parameter %q" -/
  | invalidQueryParameter (k : String)
  /-- "must supply driver, ds & master_key_url query parameters" -/
  | mustSupplyThree
  /-- "must supply driver, ds, master_key_url and table query parameters" -/
  | mustSupplyFour
  /-- "engine for %#v has been already initialized" -/
  | alreadyInitialized (c : connector)
  /-- the error of `xorm.NewEngine` -/
  | newEngine (msg : String)
  /-- "failed to load id=%d, err:%v" -/
  | failedToLoad (id : Int) (msg : String)
  /-- "open keeper %v: failed to get key: %v" -/
  | failedToGetKey (u : URL) (msg : String)
deriving DecidableEq, Repr

/-- A row of the database: the database (driver and data source of the engine
that wrote it), the table and the record. -/
structure Row where
  DriverName : String
  DataSourceName : String
  Table : String
  record : SecretKey
deriving DecidableEq, Repr

/-- The calls on the registry and on outside parties, in the order made. -/
inductive Event where
  /-- a read `engines[c]` under `m.RLock` or `m.Lock` -/
  | lookup (c : connector)
  /-- a call `xorm.NewEngine` that returned engine `x` -/
  | newEngine (x : Engine)
  /-- a call `xorm.NewEngine` that returned an error -/
  | newEngineFailed (c : connector)
  /-- the write `engines[c] = x` -/
  | install (c : connector) (x : Engine)
  /-- `x.Close()` -/
  | close (x : Engine)
  /-- `x.Table(table).Get(&SecretKey{ID: id})` -/
  | get (x : Engine) (table : String) (id : Int)
  /-- `localsecrets.NewRandomKey()` -/
  | newRandomKey
  /-- `x.Table(table).InsertOne(record)` -/
  | insertOne (x : Engine) (table : String) (record : SecretKey)
deriving DecidableEq, Repr

/-- The process-wide state of the package (`defaultOptions`, `engines`), the
database behind the engines (`rows`), the next fresh engine pointer and the
trace of calls made so far. -/
structure State where
  defaultOptions : Options
  engines : List (connector × Engine)
  nextPtr : Nat
  rows : List Row
  trace : List Event
deriving DecidableEq, Repr

/-- The outcomes of the outside calls one invocation can make. -/
structure Env where
  /-- decides the order in which `range u.Query()` yields the keys -/
  rangeSeed : List Nat
  /-- the error of `xorm.NewEngine`, if it fails -/
  newEngineErr : Option String
  /-- the error of `Get`, if it fails -/
  getErr : Option String
  /-- the result of `localsecrets.NewRandomKey()` -/
  randomKey : Except String Key32
  /-- the error of `InsertOne`, if it fails -/
  insertErr : Option String
  /-- the time the storage engine stamps in the `created` column -/
  now : Int

/-- The zero value of `Options`, the initial `defaultOptions`. -/
def Options.zero : Options := ⟨⟨"", ""⟩, "", ""⟩

/-- The state of a freshly started process on database `rows`. -/
def State.init (rows : List Row) : State := ⟨Options.zero, [], 0, rows, []⟩

/-! ## Standard library: `strconv.ParseInt(s, 10, 64)`

The functions of the Go standard library and of `gocloud.dev` that the package
calls are not part of the repository; they are written here after their
documented behaviour. -/

/-- The digit loop of `strconv.ParseUint(s, 10, 64)`. -/
def parseUintLoop : Nat → List Char → Except NumError Nat
  | n, [] => .ok n
  | n, c :: cs =>
    if 48 ≤ c.toNat ∧ c.toNat ≤ 57 then
      if n * 10 + (c.toNat - 48) ≥ 2 ^ 64 then .error .ErrRange
      else parseUintLoop (n * 10 + (c.toNat - 48)) cs
    else .error .ErrSyntax

/-- The call `strconv.ParseUint(s, 10, 64)`. -/
def ParseUint (s : List Char) : Except NumError Nat :=
  if s = [] then .error .ErrSyntax else parseUintLoop 0 s

/-- The sign and range handling of `strconv.ParseInt(s, 10, 64)` after the
sign has been taken off. -/
def parseIntSigned (neg : Bool) (s : List Char) : Except NumError Int :=
  match ParseUint s with
  | .error e => .error e
  | .ok un =>
    if !neg && decide (un ≥ 2 ^ 63) then .error .ErrRange
    else if neg && decide (un > 2 ^ 63) then .error .ErrRange
    else .ok (if neg then -(un : Int) else (un : Int))

/-- The call `strconv.ParseInt(s, 10, 64)`. -/
def ParseInt (s : String) : Except NumError Int :=
  match s.data with
  | [] => .error .ErrSyntax
  | c :: cs =>
    if c = '+' then parseIntSigned false cs
    else if c = '-' then parseIntSigned true cs
    else parseIntSigned false (c :: cs)

/-! ## Standard library: `url.Values` -/

/-- The method `Values.Get`: the first value of the key, or the empty string. -/
def Values.Get : Values → String → String
  | [], _ => ""
  | (k, v) :: rest, key => if k = key then v else Values.Get rest key

/-- The keys of the `url.Values` map, each once. -/
def Values.keys (q : Values) : List String := (q.map Prod.fst).dedup

/-- The order in which a `range` over a map with keys `keys` yields them.  The
language leaves the order unspecified; here every list of numbers picks one
ordering (`rangeOrder_perm`), and every ordering of the keys is picked by some
list (`rangeOrder_complete`). -/
def rangeOrder : List Nat → List String → List String
  | _, [] => []
  | seed, k :: ks =>
    (rangeOrder seed.tail ks).insertIdx (seed.headD 0 % ((rangeOrder seed.tail ks).length + 1)) k

/-! ## Standard library: `base64.StdEncoding` -/

/-- The alphabet `encodeStd`. -/
def encodeStd : List Char :=
  "ABCDEFGHIJKLMNOPQRSTUVWXYZabcdefghijklmnopqrstuvwxyz0123456789+/".data

/-- The lookup `enc.encode[i]`. -/
def encodeChar (i : Nat) : Char := encodeStd.getD i 'A'

/-- The lookup `enc.decodeMap[c]`; `none` stands for the entry `0xff`. -/
def decodeChar (c : Char) : Option Nat :=
  if encodeStd.indexOf c < 64 then some (encodeStd.indexOf c) else none

/-- The loop of `Encoding.Encode` for the standard, padded encoding: three
bytes make `val = a<<16 | b<<8 | c` and four characters; the rest of one or
two bytes is padded with `=`. -/
def encodeBytes : List Nat → List Char
  | a :: b :: c :: rest =>
    encodeChar ((a * 65536 + b * 256 + c) / 262144 % 64) ::
    encodeChar ((a * 65536 + b * 256 + c) / 4096 % 64) ::
    encodeChar ((a * 65536 + b * 256 + c) / 64 % 64) ::
    encodeChar ((a * 65536 + b * 256 + c) % 64) :: encodeBytes rest
  | [a, b] =>
    [encodeChar ((a * 65536 + b * 256) / 262144 % 64),
     encodeChar ((a * 65536 + b * 256) / 4096 % 64),
     encodeChar ((a * 65536 + b * 256) / 64 % 64), '=']
  | [a] =>
    [encodeChar ((a * 65536) / 262144 % 64), encodeChar ((a * 65536) / 4096 % 64), '=', '=']
  | [] => []

/-- The call `base64.StdEncoding.EncodeToString`. -/
def EncodeToString (src : List Nat) : String := String.mk (encodeBytes src)

/-- The quantum loop of `Encoding.DecodeString` for the standard, padded,
non-strict encoding, on input without line breaks: four characters make
`val = d0<<18 | d1<<12 | d2<<6 | d3` and three bytes; a last quantum ending in
`=` or `==` makes two bytes or one; anything else is corrupt input. -/
def decodeQuanta : List Char → Option (List Nat)
  | [] => some []
  | c0 :: c1 :: c2 :: c3 :: rest =>
    match decodeChar c0, decodeChar c1 with
    | some d0, some d1 =>
      if c3 = '=' then
        if rest ≠ [] then none
        else if c2 = '=' then some [(d0 * 262144 + d1 * 4096) / 65536 % 256]
        else
          match decodeChar c2 with
          | some d2 =>
            some [(d0 * 262144 + d1 * 4096 + d2 * 64) / 65536 % 256,
                  (d0 * 262144 + d1 * 4096 + d2 * 64) / 256 % 256]
          | none => none
      else
        match decodeChar c2, decodeChar c3, decodeQuanta rest with
        | some d2, some d3, some tl =>
          some ((d0 * 262144 + d1 * 4096 + d2 * 64 + d3) / 65536 % 256 ::
                (d0 * 262144 + d1 * 4096 + d2 * 64 + d3) / 256 % 256 ::
                (d0 * 262144 + d1 * 4096 + d2 * 64 + d3) % 256 :: tl)
        | _, _, _ => none
    | _, _ => none
  | _ => none

/-- The call `base64.StdEncoding.DecodeString`: carriage returns and line
feeds are skipped, the rest is decoded quantum by quantum. -/
def DecodeString (s : String) : Option (List Nat) :=
  decodeQuanta (s.data.filter fun c => c ≠ Char.ofNat 10 ∧ c ≠ Char.ofNat 13)

/-- The function `localsecrets.Base64Key`: decodes and demands 32 bytes. -/
def Base64Key (base64str : String) : Except String Key32 :=
  match DecodeString base64str with
  | none => .error "illegal base64 data"
  | some key =>
    if h : key.length = 32 ∧ ∀ b ∈ key, b < 256 then .ok ⟨key, h⟩
    else .error "Base64Key: secret key material is not 32 bytes"

/-- The function `localsecrets.NewKeeper`. -/
def NewKeeper (sk : Key32) : Keeper := ⟨sk⟩

/-! ## The registry: `engines` under the lock `m` -/

/-- The map read `engines[c]`. -/
def mapGet : List (connector × Engine) → connector → Option Engine
  | [], _ => none
  | (k, x) :: rest, c => if k = c then some x else mapGet rest c

/-- Appends one call to the trace. -/
def State.log (s : State) (e : Event) : State := { s with trace := s.trace ++ [e] }

/-- The read under the read lock, `m.RLock(); x, ok := engines[c]; m.RUnlock()`
(lines 60-62, 106-108 and 164-166). -/
def readCheck (s : State) (c : connector) : Option Engine × State :=
  (mapGet s.engines c, s.log (.lookup c))

/-- The call `xorm.NewEngine(c.Driver, c.DataSource)`, made outside the lock
(lines 72-78 and 169-175).  It fails with `err` when `err` is given, and
otherwise returns a pointer no earlier engine has.  The calls `SetCacher`,
`SetMapper` and `ShowSQL` that follow configure the new engine and change
nothing the package reads. -/
def NewEngine (err : Option String) (s : State) (c : connector) : Except String Engine × State :=
  match err with
  | some msg => (.error msg, s.log (.newEngineFailed c))
  | none =>
    (.ok ⟨s.nextPtr, c.Driver, c.DataSource⟩,
     { s with nextPtr := s.nextPtr + 1,
              trace := s.trace ++ [.newEngine ⟨s.nextPtr, c.Driver, c.DataSource⟩] })

/-- The section of `OpenKeeperURL` under the write lock (lines 177-185): the
map is read again; when the key is there the candidate `x2` is closed and the
engine of the map is used, otherwise `x2` is stored and used. -/
def writeCheck (s : State) (c : connector) (x2 : Engine) : Engine × State :=
  match mapGet s.engines c with
  | some x => (x, { s with trace := s.trace ++ [.lookup c, .close x2] })
  | none =>
    (x2, { s with engines := (c, x2) :: s.engines,
                  trace := s.trace ++ [.lookup c, .install c x2] })

/-- Lines 164-186 of `OpenKeeperURL` run without interruption: read under the
read lock, construct on a miss, check again under the write lock. -/
def acquire (newEngineErr : Option String) (s : State) (c : connector) :
    Except Error Engine × State :=
  match readCheck s c with
  | (some x, s1) => (.ok x, s1)
  | (none, s1) =>
    match NewEngine newEngineErr s1 c with
    | (.error msg, s2) => (.error (.newEngine msg), s2)
    | (.ok x2, s2) => (.ok (writeCheck s2 c x2).1, (writeCheck s2 c x2).2)

/-! ## The storage engine -/

/-- Modelled from the spec: the point lookup `getByID` of section 4.3, which
`x.Table(table).Get(&SecretKey{ID: id})` asks of the storage engine (the
engine is outside the repository): the first record of `table` in the database
of `x` whose id is `id`, if there is one. -/
def getByID (rows : List Row) (x : Engine) (table : String) (id : Int) : Option SecretKey :=
  (rows.find? fun r =>
    decide (r.DriverName = x.DriverName ∧ r.DataSourceName = x.DataSourceName ∧
      r.Table = table ∧ r.record.ID = id)).map Row.record

/-- Modelled from the spec: `insertOne` of section 4.3, which
`x.Table(table).InsertOne(record)` asks of the storage engine: one new row in
`table` of the database of `x`, its `created` column stamped with `now`. -/
def insertOne (rows : List Row) (x : Engine) (table : String) (record : SecretKey) (now : Int) :
    List Row :=
  rows ++ [⟨x.DriverName, x.DataSourceName, table, { record with CreatedUnix := now }⟩]

/-! ## `OpenKeeperURL` -/

/-- The condition of line 140 on a query key `k`. -/
def unknownKey (k : String) : Prop :=
  k ≠ "driver" ∧ k ≠ "ds" ∧ k ≠ "table" ∧ k ≠ "master_key_url"

instance (k : String) : Decidable (unknownKey k) := by
  unfold unknownKey
  infer_instance

/-- The loop over `u.Query()` (lines 139-143) on the keys in the order the loop
meets them: the first key that satisfies the condition of line 140. -/
def checkKeys : List String → Option String
  | [] => none
  | k :: ks => if unknownKey k then some k else checkKeys ks

/-- Lines 144-158: a copy of `defaultOptions` in which each of the four fields
is replaced by the value of its query key when that value is not empty. -/
def overlay (defaultOptions : Options) (q : Values) : Options :=
  { conn :=
      { Driver := if q.Get "driver" ≠ "" then q.Get "driver" else defaultOptions.conn.Driver,
        DataSource := if q.Get "ds" ≠ "" then q.Get "ds" else defaultOptions.conn.DataSource },
    Table := if q.Get "table" ≠ "" then q.Get "table" else defaultOptions.Table,
    MasterKeyURL :=
      if q.Get "master_key_url" ≠ "" then q.Get "master_key_url"
      else defaultOptions.MasterKeyURL }

/-- Lines 134-162 of `OpenKeeperURL`: the key id is parsed from `u.Host`, the
query keys are checked, the options are overlaid and checked for empty
fields.  `seed` fixes the order of the loop over the map. -/
def resolve (seed : List Nat) (defaultOptions : Options) (u : URL) : Except Error (Int × Options) :=
  match ParseInt u.Host with
  | .error err => .error (.couldNotParseId u.Path err)
  | .ok id =>
    match checkKeys (rangeOrder seed u.Query.keys) with
    | some k => .error (.invalidQueryParameter k)
    | none =>
      if (overlay defaultOptions u.Query).conn.Driver = "" ∨
          (overlay defaultOptions u.Query).conn.DataSource = "" ∨
          (overlay defaultOptions u.Query).Table = "" ∨
          (overlay defaultOptions u.Query).MasterKeyURL = "" then
        .error .mustSupplyFour
      else .ok (id, overlay defaultOptions u.Query)

/-- The record `OpenKeeperURL` hands to `InsertOne` (lines 205-211). -/
def newRecord (id : Int) (opts : Options) (sk : Key32) : SecretKey :=
  { ID := id, Key := { URL := opts.MasterKeyURL, Data := EncodeToString sk.val }, CreatedUnix := 0 }

/-- Lines 188-216 of `OpenKeeperURL`: the record is looked up; when found its
key is decoded, otherwise a random key is made and inserted. -/
def findOrCreate (env : Env) (s : State) (u : URL) (id : Int) (opts : Options) (x : Engine) :
    Except Error Keeper × State :=
  match env.getErr with
  | some msg => (.error (.failedToLoad id msg), s.log (.get x opts.Table id))
  | none =>
    match getByID s.rows x opts.Table id with
    | some data =>
      match Base64Key data.Key.Data with
      | .error msg => (.error (.failedToGetKey u msg), s.log (.get x opts.Table id))
      | .ok sk => (.ok (NewKeeper sk), s.log (.get x opts.Table id))
    | none =>
      match env.randomKey with
      | .error msg =>
        (.error (.failedToGetKey u msg),
         { s with trace := s.trace ++ [.get x opts.Table id, .newRandomKey] })
      | .ok sk =>
        match env.insertErr with
        | some msg =>
          (.error (.failedToGetKey u msg),
           { s with trace := s.trace ++
              [.get x opts.Table id, .newRandomKey, .insertOne x opts.Table (newRecord id opts sk)] })
        | none =>
          (.ok (NewKeeper sk),
           { s with rows := insertOne s.rows x opts.Table (newRecord id opts sk) env.now,
                    trace := s.trace ++
              [.get x opts.Table id, .newRandomKey, .insertOne x opts.Table (newRecord id opts sk)] })

/-- The method `URLOpener.OpenKeeperURL`, run without interruption. -/
def OpenKeeperURL (env : Env) (s : State) (u : URL) : Except Error Keeper × State :=
  match resolve env.rangeSeed s.defaultOptions u with
  | .error e => (.error e, s)
  | .ok (id, opts) =>
    match acquire env.newEngineErr s opts.conn with
    | (.error e, s1) => (.error e, s1)
    | (.ok x, s1) => findOrCreate env s1 u id opts x

/-! ## `Init` and `Register` -/

/-- Lines 53-55 and 99-101: the three assignments to `defaultOptions`. -/
def setDefaults (s : State) (q : Values) : State :=
  { s with defaultOptions :=
      { conn := ⟨q.Get "driver", q.Get "ds"⟩,
        Table := s.defaultOptions.Table,
        MasterKeyURL := q.Get "master_key_url" } }

/-- Lines 67-70 and 113-116: the assignment to `defaultOptions.Table`. -/
def setDefaultTable (s : State) (q : Values) : State :=
  { s with defaultOptions :=
      { s.defaultOptions with
        Table := if q.Get "table" = "" then "secret_key" else q.Get "table" } }

/-- The section under the write lock of `Init` (lines 80-89). -/
def initInstall (s : State) (x : Engine) : Option Error × State :=
  match mapGet s.engines s.defaultOptions.conn with
  | some _ =>
    (some (.alreadyInitialized s.defaultOptions.conn),
     { s with trace := s.trace ++ [.lookup s.defaultOptions.conn, .close x] })
  | none =>
    (none,
     { s with engines := (s.defaultOptions.conn, x) :: s.engines,
              trace := s.trace ++ [.lookup s.defaultOptions.conn, .install s.defaultOptions.conn x] })

/-- The section under the write lock of `Register` (lines 118-126). -/
def registerInstall (s : State) (x : Engine) : Option Error × State :=
  match mapGet s.engines s.defaultOptions.conn with
  | some _ =>
    (some (.alreadyInitialized s.defaultOptions.conn), s.log (.lookup s.defaultOptions.conn))
  | none =>
    (none,
     { s with engines := (s.defaultOptions.conn, x) :: s.engines,
              trace := s.trace ++ [.lookup s.defaultOptions.conn, .install s.defaultOptions.conn x] })

/-- The function `Init`, run without interruption.  `parsed` is the result of
`url.Parse(rawurl)`; the returned error is `none` for `nil`. -/
def Init (env : Env) (s : State) (parsed : Except String URL) : Option Error × State :=
  match parsed with
  | .error msg => (some (.urlParse msg), s)
  | .ok u =>
    if (setDefaults s u.Query).defaultOptions.conn.Driver = "" ∨
        (setDefaults s u.Query).defaultOptions.conn.DataSource = "" ∨
        (setDefaults s u.Query).defaultOptions.MasterKeyURL = "" then
      (some .mustSupplyThree, setDefaults s u.Query)
    else
      match readCheck (setDefaults s u.Query) (setDefaults s u.Query).defaultOptions.conn with
      | (some _, s1) => (some (.alreadyInitialized s1.defaultOptions.conn), s1)
      | (none, s1) =>
        match NewEngine env.newEngineErr (setDefaultTable s1 u.Query)
            (setDefaultTable s1 u.Query).defaultOptions.conn with
        | (.error msg, s2) => (some (.newEngine msg), s2)
        | (.ok x, s2) => initInstall s2 x

/-- The function `Register`, run without interruption.  `parsed` is the result
of `url.Parse(rawurl)`; the returned error is `none` for `nil`. -/
def Register (s : State) (parsed : Except String URL) (x : Engine) : Option Error × State :=
  match parsed with
  | .error msg => (some (.urlParse msg), s)
  | .ok u =>
    if (setDefaults s u.Query).defaultOptions.conn.Driver = "" ∨
        (setDefaults s u.Query).defaultOptions.conn.DataSource = "" ∨
        (setDefaults s u.Query).defaultOptions.MasterKeyURL = "" then
      (some .mustSupplyThree, setDefaults s u.Query)
    else
      match readCheck (setDefaults s u.Query) (setDefaults s u.Query).defaultOptions.conn with
      | (some _, s1) => (some (.alreadyInitialized s1.defaultOptions.conn), s1)
      | (none, s1) => registerInstall (setDefaultTable s1 u.Query) x

/-! ## Concurrent calls of `OpenKeeperURL`

Lines 164-186 touch the registry in two critical sections of the lock `m`, the
read of lines 164-166 and the check-and-store of lines 177-185, and construct
the candidate engine between them, outside the lock.  A critical section runs
without interference on the registry, and `xorm.NewEngine` does not touch it,
so an execution of several calls is an interleaving of these three steps. -/

/-- Where a call of `OpenKeeperURL` stands in lines 164-186. -/
inductive Pc where
  /-- before the read lock of line 164 -/
  | atReadCheck
  /-- the read missed; before `xorm.NewEngine` of line 169 -/
  | atConstruct
  /-- candidate `x2` is built; before the write lock of line 177 -/
  | atWriteCheck (x2 : Engine)
  /-- returned at line 171 with the error of `xorm.NewEngine` -/
  | returned (msg : String)
  /-- past line 186, going on with engine `x` -/
  | holds (x : Engine)
deriving DecidableEq, Repr

/-- Whether the call is through with lines 164-186. -/
def Pc.finished : Pc → Bool
  | .returned _ => true
  | .holds _ => true
  | _ => false

/-- The number of steps the call has left at most. -/
def Pc.remaining : Pc → Nat
  | .atReadCheck => 3
  | .atConstruct => 2
  | .atWriteCheck _ => 1
  | .returned _ => 0
  | .holds _ => 0

/-- The next step of a call that resolved to connection `c`. -/
def stepCall (c : connector) (newEngineErr : Option String) (s : State) : Pc → Pc × State
  | .atReadCheck =>
    match readCheck s c with
    | (some x, s1) => (.holds x, s1)
    | (none, s1) => (.atConstruct, s1)
  | .atConstruct =>
    match NewEngine newEngineErr s c with
    | (.error msg, s1) => (.returned msg, s1)
    | (.ok x2, s1) => (.atWriteCheck x2, s1)
  | .atWriteCheck x2 => (.holds (writeCheck s c x2).1, (writeCheck s c x2).2)
  | .returned msg => (.returned msg, s)
  | .holds x => (.holds x, s)

/-- The shared state and the position of every call. -/
structure Conc where
  shared : State
  calls : List Pc
deriving DecidableEq, Repr

/-- Call number `i` takes its next step; `newEngineErr` is the outcome of
`xorm.NewEngine` should the step be the construction. -/
def Conc.step (c : connector) (k : Conc) (i : Nat) (newEngineErr : Option String) : Conc :=
  match k.calls[i]? with
  | none => k
  | some pc =>
    ⟨(stepCall c newEngineErr k.shared pc).2, k.calls.set i (stepCall c newEngineErr k.shared pc).1⟩

/-- An interleaving: the calls step in the order of the schedule. -/
def Conc.run (c : connector) : Conc → List (Nat × Option String) → Conc
  | k, [] => k
  | k, (i, err) :: rest => Conc.run c (k.step c i err) rest

/-- The start of `n` concurrent calls on state `s`. -/
def Conc.start (s : State) (n : Nat) : Conc := ⟨s, List.replicate n .atReadCheck⟩

/-- What holds after every step of an interleaving that starts in state `s`
without an engine for `c`; `evs` are the calls made since the start. -/
structure ConcInv (c : connector) (s : State) (k : Conc) (evs : List Event) : Prop where
  trace_eq : k.shared.trace = s.trace ++ evs
  ptr_lt : ∀ x, Event.newEngine x ∈ evs → x.ptr < k.shared.nextPtr
  closed_built : ∀ x, Event.close x ∈ evs → Event.newEngine x ∈ evs
  installed_built : ∀ c1 x, Event.install c1 x ∈ evs → Event.newEngine x ∈ evs
  pending_built : ∀ (j : Nat) x, k.calls[j]? = some (Pc.atWriteCheck x) → Event.newEngine x ∈ evs
  pending_unique : ∀ (i j : Nat) x, k.calls[i]? = some (Pc.atWriteCheck x) →
    k.calls[j]? = some (Pc.atWriteCheck x) → i = j
  pending_open : ∀ (j : Nat) x, k.calls[j]? = some (Pc.atWriteCheck x) →
    Event.close x ∉ evs ∧ ∀ c1, Event.install c1 x ∉ evs
  holds_retained : ∀ (j : Nat) x, k.calls[j]? = some (Pc.holds x) → mapGet k.shared.engines c = some x
  registry :
    (k.shared.engines = s.engines ∧ ∀ c1 x, Event.install c1 x ∉ evs) ∨
    ∃ w, k.shared.engines = (c, w) :: s.engines ∧ Event.newEngine w ∈ evs ∧
      Event.install c w ∈ evs ∧ Event.close w ∉ evs ∧ ∀ c1 x, Event.install c1 x ∈ evs → x = w
  built_status : ∀ x, Event.newEngine x ∈ evs →
    (∃ j : Nat, k.calls[j]? = some (Pc.atWriteCheck x)) ∨ mapGet k.shared.engines c = some x ∨
      Event.close x ∈ evs
  closed_retained : ∀ x, Event.close x ∈ evs → ∃ w, mapGet k.shared.engines c = some w
  closed_not_installed : ∀ x, Event.close x ∈ evs → ∀ c1, Event.install c1 x ∉ evs

/-! ## The entry points -/

/-- One call of an entry point of the package with its arguments. -/
inductive Call where
  | init (env : Env) (parsed : Except String URL)
  | register (parsed : Except String URL) (x : Engine)
  | openKeeper (env : Env) (u : URL)

/-- The state a call leaves. -/
def Call.run : Call → State → State
  | .init env parsed, s => (Init env s parsed).2
  | .register parsed x, s => (Register s parsed x).2
  | .openKeeper env u, s => (OpenKeeperURL env s u).2

/-! ## Concrete values, after `xormksm_demo` in `src/main.go` -/

/-- The locator `Register` is called with in `xormksm_demo` (lines 28-41). -/
def demoRegisterURL : URL :=
  ⟨"", "",
   [("driver", "postgres"),
    ("ds", "user=gitea password=gitea host=127.0.0.1 port=5432 dbname=xorm-demo sslmode=disable"),
    ("master_key_url",
      "gcpkms://projects/ackube/locations/global/keyRings/gitea/cryptoKeys/gitea-key")]⟩

/-- The connection identity of `demoRegisterURL`. -/
def demoConn : connector :=
  ⟨"postgres", "user=gitea password=gitea host=127.0.0.1 port=5432 dbname=xorm-demo sslmode=disable"⟩

/-- The options `demoRegisterURL` leaves in `defaultOptions`. -/
def demoOptions : Options :=
  ⟨demoConn, "secret_key",
   "gcpkms://projects/ackube/locations/global/keyRings/gitea/cryptoKeys/gitea-key"⟩

/-- The engine `xormksm_demo` builds itself and hands to `Register` (line 45). -/
def demoEngine : Engine :=
  ⟨1000, "postgres",
   "user=gitea password=gitea host=127.0.0.1 port=5432 dbname=xorm-demo sslmode=disable"⟩

/-- The locator `xkms://20190803` of `xormksm_demo` (line 63). -/
def demoKeyURL : URL := ⟨"20190803", "", []⟩

/-- A key of thirty-two bytes 7. -/
def key7 : Key32 := ⟨List.replicate 32 7, by decide⟩

/-- A key of thirty-two bytes 9. -/
def key9 : Key32 := ⟨List.replicate 32 9, by decide⟩

/-- Outside calls that all succeed; the random source gives `key7`. -/
def envOk : Env := ⟨[], none, none, .ok key7, none, 1564790400⟩

/-- Outside calls that all succeed; the random source gives `key9` and the
loop over the query keys starts one position further. -/
def envOk2 : Env := ⟨[1], none, none, .ok key9, none, 1564790500⟩

/-- Outside calls in which `xorm.NewEngine` fails. -/
def envNoEngine : Env := ⟨[], some "sql: unknown driver", none, .ok key7, none, 1564790400⟩

/-- The state after `Register(demoRegisterURL, demoEngine)` on an empty
database. -/
def demoState : State := (Register (State.init []) (.ok demoRegisterURL) demoEngine).2

/-- A locator with an unparseable key id and an unknown query key. -/
def badIdURL : URL := ⟨"key-1", "", [("colour", "red")]⟩

/-- A locator with two unknown query keys. -/
def twoUnknownURL : URL := ⟨"20190803", "", [("colour", "red"), ("size", "xl")]⟩

/-- A locator with driver, ds and master_key_url and no table. -/
def noTableURL : URL := ⟨"20190803", "", demoRegisterURL.Query⟩

/-- A locator with the identity of `demoRegisterURL` and another master key. -/
def otherMasterURL : URL :=
  ⟨"", "",
   [("driver", "postgres"),
    ("ds", "user=gitea password=gitea host=127.0.0.1 port=5432 dbname=xorm-demo sslmode=disable"),
    ("master_key_url", "gcpkms://projects/ackube/locations/global/keyRings/gitea/cryptoKeys/other")]⟩

/-- A locator with another identity: the data source differs. -/
def otherConnURL : URL :=
  ⟨"", "",
   [("driver", "postgres"), ("ds", "user=gitea dbname=other"),
    ("master_key_url",
      "gcpkms://projects/ackube/locations/global/keyRings/gitea/cryptoKeys/gitea-key")]⟩

/-- The key locator of the demo with the query of `otherConnURL`. -/
def otherConnKeyURL : URL := ⟨"20190803", "", otherConnURL.Query⟩

/-- A locator without a query. -/
def noQueryURL : URL := ⟨"", "", []⟩

/-- A schedule of one call whose construction fails. -/
def failingSchedule : List (Nat × Option String) :=
  [(0, none), (0, some "sql: unknown driver")]

/-- A schedule of two calls that both miss, both construct, and then check
under the write lock, the second call first. -/
def racingSchedule : List (Nat × Option String) :=
  [(0, none), (1, none), (0, none), (1, none), (1, none), (0, none)]

/-! # Properties -/

/-! ## Base64 round trip -/

theorem decodeChar_encodeChar (n : Nat) (h : n < 64) : decodeChar (encodeChar n) = some n := by
  have key : ∀ m : Fin 64, decodeChar (encodeChar m.val) = some m.val := by decide
  exact key ⟨n, h⟩

theorem encodeChar_ne_pad (n : Nat) (h : n < 64) : encodeChar n ≠ '=' := by
  have key : ∀ m : Fin 64, encodeChar m.val ≠ '=' := by decide
  exact key ⟨n, h⟩

theorem encodeChar_not_newline (n : Nat) (h : n < 64) :
    encodeChar n ≠ Char.ofNat 10 ∧ encodeChar n ≠ Char.ofNat 13 := by
  have key : ∀ m : Fin 64, encodeChar m.val ≠ Char.ofNat 10 ∧ encodeChar m.val ≠ Char.ofNat 13 := by
    decide
  exact key ⟨n, h⟩

theorem decodeQuanta_encodeBytes (l : List Nat) (hl : ∀ b ∈ l, b < 256) :
    decodeQuanta (encodeBytes l) = some l := by
  induction l using encodeBytes.induct with
  | case1 a b c rest ih =>
    have ha : a < 256 := hl a (by simp)
    have hb : b < 256 := hl b (by simp)
    have hc : c < 256 := hl c (by simp)
    have hrest : ∀ x ∈ rest, x < 256 := fun x hx => hl x (by simp [hx])
    simp only [encodeBytes, decodeQuanta]
    rw [decodeChar_encodeChar _ (Nat.mod_lt _ (by norm_num)),
      decodeChar_encodeChar _ (Nat.mod_lt _ (by norm_num)),
      decodeChar_encodeChar _ (Nat.mod_lt _ (by norm_num)),
      decodeChar_encodeChar _ (Nat.mod_lt _ (by norm_num)), ih hrest]
    simp only [if_neg (encodeChar_ne_pad _ (Nat.mod_lt _ (by norm_num : 0 < 64)))]
    congr 2
    · omega
    · congr 1
      · omega
      · congr 1
        omega
  | case2 a b =>
    have ha : a < 256 := hl a (by simp)
    have hb : b < 256 := hl b (by simp)
    simp only [encodeBytes, decodeQuanta]
    rw [decodeChar_encodeChar _ (Nat.mod_lt _ (by norm_num)),
      decodeChar_encodeChar _ (Nat.mod_lt _ (by norm_num)),
      decodeChar_encodeChar _ (Nat.mod_lt _ (by norm_num))]
    simp only [if_neg (encodeChar_ne_pad _ (Nat.mod_lt _ (by norm_num : 0 < 64)))]
    simp
    constructor <;> omega
  | case3 a =>
    have ha : a < 256 := hl a (by simp)
    simp only [encodeBytes, decodeQuanta]
    rw [decodeChar_encodeChar _ (Nat.mod_lt _ (by norm_num)),
      decodeChar_encodeChar _ (Nat.mod_lt _ (by norm_num))]
    simp
    omega
  | case4 => simp [encodeBytes, decodeQuanta]

theorem encodeBytes_not_newline (l : List Nat) :
    ∀ ch ∈ encodeBytes l, ch ≠ Char.ofNat 10 ∧ ch ≠ Char.ofNat 13 := by
  induction l using encodeBytes.induct with
  | case1 a b c rest ih =>
    intro ch hch
    simp only [encodeBytes, List.mem_cons] at hch
    rcases hch with h | h | h | h | h
    · subst h; exact encodeChar_not_newline _ (Nat.mod_lt _ (by norm_num))
    · subst h; exact encodeChar_not_newline _ (Nat.mod_lt _ (by norm_num))
    · subst h; exact encodeChar_not_newline _ (Nat.mod_lt _ (by norm_num))
    · subst h; exact encodeChar_not_newline _ (Nat.mod_lt _ (by norm_num))
    · exact ih ch h
  | case2 a b =>
    intro ch hch
    simp only [encodeBytes, List.mem_cons, List.mem_singleton, List.not_mem_nil, or_false] at hch
    rcases hch with h | h | h | h
    · subst h; exact encodeChar_not_newline _ (Nat.mod_lt _ (by norm_num))
    · subst h; exact encodeChar_not_newline _ (Nat.mod_lt _ (by norm_num))
    · subst h; exact encodeChar_not_newline _ (Nat.mod_lt _ (by norm_num))
    · subst h; decide
  | case3 a =>
    intro ch hch
    simp only [encodeBytes, List.mem_cons, List.mem_singleton, List.not_mem_nil, or_false] at hch
    rcases hch with h | h | h | h
    · subst h; exact encodeChar_not_newline _ (Nat.mod_lt _ (by norm_num))
    · subst h; exact encodeChar_not_newline _ (Nat.mod_lt _ (by norm_num))
    · subst h; decide
    · subst h; decide
  | case4 => simp [encodeBytes]

theorem DecodeString_EncodeToString (l : List Nat) (hl : ∀ b ∈ l, b < 256) :
    DecodeString (EncodeToString l) = some l := by
  unfold DecodeString EncodeToString
  have hf : (encodeBytes l).filter (fun c => decide (c ≠ Char.ofNat 10 ∧ c ≠ Char.ofNat 13))
      = encodeBytes l := by
    apply List.filter_eq_self.mpr
    intro ch hch
    simpa using encodeBytes_not_newline l ch hch
  simp only [hf]
  exact decodeQuanta_encodeBytes l hl

theorem Base64Key_EncodeToString (sk : Key32) : Base64Key (EncodeToString sk.val) = .ok sk := by
  unfold Base64Key
  rw [DecodeString_EncodeToString sk.val sk.property.2]
  simp only [dif_pos sk.property]
  rfl
  

/-! ## The loop over the query keys -/

theorem mem_rangeOrder (k : String) (ks : List String) :
    ∀ seed : List Nat, k ∈ rangeOrder seed ks ↔ k ∈ ks := by
  induction ks with
  | nil => intro seed; simp [rangeOrder]
  | cons a rest ih =>
    intro seed
    have hle : seed.headD 0 % ((rangeOrder seed.tail rest).length + 1)
        ≤ (rangeOrder seed.tail rest).length :=
      Nat.lt_succ_iff.mp (Nat.mod_lt _ (Nat.succ_pos _))
    simp only [rangeOrder]
    rw [List.mem_insertIdx hle, ih seed.tail, List.mem_cons]

/-- The order of the loop is an ordering of the keys, whatever the seed. -/
theorem rangeOrder_perm (ks : List String) : ∀ seed : List Nat, (rangeOrder seed ks).Perm ks := by
  induction ks with
  | nil => intro seed; simp [rangeOrder]
  | cons a rest ih =>
    intro seed
    have hle : seed.headD 0 % ((rangeOrder seed.tail rest).length + 1)
        ≤ (rangeOrder seed.tail rest).length :=
      Nat.lt_succ_iff.mp (Nat.mod_lt _ (Nat.succ_pos _))
    simp only [rangeOrder]
    exact (List.perm_insertIdx a _ hle).trans ((ih seed.tail).cons a)

theorem insertIdx_indexOf_erase (k : String) (l : List String) (h : k ∈ l) :
    (l.erase k).insertIdx (l.indexOf k) k = l := by
  induction l with
  | nil => simp at h
  | cons a t ih =>
    by_cases hak : a = k
    · subst hak
      simp
    · have hkt : k ∈ t := by
        rcases List.mem_cons.mp h with h1 | h1
        · exact absurd h1.symm hak
        · exact h1
      rw [List.indexOf_cons_ne _ hak, List.erase_cons_tail (by simpa using hak),
        List.insertIdx_succ_cons, ih hkt]

/-- Every ordering of the keys is the order of the loop for some seed. -/
theorem rangeOrder_complete (ks : List String) :
    ∀ l : List String, l.Perm ks → ∃ seed, rangeOrder seed ks = l := by
  induction ks with
  | nil =>
    intro l h
    exact ⟨[], by rw [List.Perm.eq_nil h]; rfl⟩
  | cons k t ih =>
    intro l h
    have hk : k ∈ l := h.symm.subset (List.mem_cons_self k t)
    have hperm : (l.erase k).Perm t := by
      have := h.erase k
      rwa [List.erase_cons_head] at this
    obtain ⟨seed, hseed⟩ := ih (l.erase k) hperm
    refine ⟨l.indexOf k :: seed, ?_⟩
    simp only [rangeOrder, List.tail_cons, List.headD_cons, hseed]
    have hlen : (l.erase k).length + 1 = l.length := by
      rw [List.length_erase_of_mem hk]
      have : 0 < l.length := List.length_pos_of_mem hk
      omega
    rw [hlen, Nat.mod_eq_of_lt (List.indexOf_lt_length.mpr hk)]
    exact insertIdx_indexOf_erase k l hk

theorem mem_keys (k : String) (q : Values) : k ∈ q.keys ↔ ∃ v, (k, v) ∈ q := by
  simp [Values.keys, List.mem_dedup]

theorem checkKeys_some (l : List String) (k : String) (h : checkKeys l = some k) :
    k ∈ l ∧ unknownKey k := by
  induction l with
  | nil => simp [checkKeys] at h
  | cons a rest ih =>
    simp only [checkKeys] at h
    by_cases ha : unknownKey a
    · rw [if_pos ha] at h
      cases h
      exact ⟨List.mem_cons_self _ _, ha⟩
    · rw [if_neg ha] at h
      exact ⟨List.mem_cons_of_mem _ (ih h).1, (ih h).2⟩

theorem checkKeys_eq_none (l : List String) : checkKeys l = none ↔ ∀ k ∈ l, ¬ unknownKey k := by
  induction l with
  | nil => simp [checkKeys]
  | cons a rest ih =>
    simp only [checkKeys, List.mem_cons, forall_eq_or_imp]
    by_cases ha : unknownKey a
    · simp [ha]
    · simp [ha, ih]

theorem checkKeys_rangeOrder_none (seed : List Nat) (q : Values) :
    checkKeys (rangeOrder seed q.keys) = none ↔ ∀ kv ∈ q, ¬ unknownKey kv.1 := by
  rw [checkKeys_eq_none]
  constructor
  · intro h kv hkv
    exact h kv.1 ((mem_rangeOrder _ _ _).mpr ((mem_keys _ _).mpr ⟨kv.2, hkv⟩))
  · intro h k hk
    obtain ⟨v, hv⟩ := (mem_keys _ _).mp ((mem_rangeOrder _ _ _).mp hk)
    exact h (k, v) hv

theorem checkKeys_rangeOrder_some (seed : List Nat) (q : Values) (k : String)
    (h : checkKeys (rangeOrder seed q.keys) = some k) : (∃ v, (k, v) ∈ q) ∧ unknownKey k :=
  ⟨(mem_keys _ _).mp ((mem_rangeOrder _ _ _).mp (checkKeys_some _ _ h).1), (checkKeys_some _ _ h).2⟩

theorem OpenKeeperURL_of_resolve_error (env : Env) (s : State) (u : URL) (e : Error)
    (h : resolve env.rangeSeed s.defaultOptions u = .error e) :
    OpenKeeperURL env s u = (.error e, s) := by
  simp [OpenKeeperURL, h]

theorem acquire_error (err : Option String) (s : State) (c : connector) (e : Error)
    (h : (acquire err s c).1 = .error e) : ∃ msg, e = .newEngine msg := by
  unfold acquire readCheck at h
  cases hm : mapGet s.engines c with
  | some x => simp [hm] at h
  | none =>
    cases err with
    | some msg => simp [hm, NewEngine] at h; exact ⟨msg, h.symm⟩
    | none => simp [hm, NewEngine] at h

theorem findOrCreate_error (env : Env) (s : State) (u : URL) (id : Int) (opts : Options)
    (x : Engine) (e : Error) (h : (findOrCreate env s u id opts x).1 = .error e) :
    (∃ msg, e = .failedToLoad id msg) ∨ (∃ msg, e = .failedToGetKey u msg) := by
  unfold findOrCreate at h
  split at h
  · simp at h; exact Or.inl ⟨_, h.symm⟩
  · split at h
    · split at h
      · simp at h; exact Or.inr ⟨_, h.symm⟩
      · simp at h
    · split at h
      · simp at h; exact Or.inr ⟨_, h.symm⟩
      · split at h
        · simp at h; exact Or.inr ⟨_, h.symm⟩
        · simp at h

theorem OpenKeeperURL_error_of_resolve_ok (env : Env) (s : State) (u : URL) (id : Int)
    (opts : Options) (e : Error) (hr : resolve env.rangeSeed s.defaultOptions u = .ok (id, opts))
    (h : (OpenKeeperURL env s u).1 = .error e) :
    (∃ msg, e = .newEngine msg) ∨ (∃ msg, e = .failedToLoad id msg) ∨
      (∃ msg, e = .failedToGetKey u msg) := by
  simp only [OpenKeeperURL, hr] at h
  cases ha : acquire env.newEngineErr s opts.conn with
  | mk r s1 =>
    cases r with
    | error e1 =>
      simp only [ha] at h
      have : e1 = e := by simpa using h
      subst this
      exact Or.inl (acquire_error _ _ _ _ (by rw [ha]))
    | ok x =>
      simp only [ha] at h
      exact Or.inr (findOrCreate_error _ _ _ _ _ _ _ h)

theorem resolve_of_parse_error (seed : List Nat) (d : Options) (u : URL) (err : NumError)
    (h : ParseInt u.Host = .error err) : resolve seed d u = .error (.couldNotParseId u.Path err) := by
  simp [resolve, h]

theorem resolve_of_unknown_key (seed : List Nat) (d : Options) (u : URL) (id : Int)
    (hid : ParseInt u.Host = .ok id) (hq : ∃ kv ∈ u.Query, unknownKey kv.1) :
    ∃ k, resolve seed d u = .error (.invalidQueryParameter k) ∧ (∃ v, (k, v) ∈ u.Query) ∧
      unknownKey k := by
  cases hc : checkKeys (rangeOrder seed u.Query.keys) with
  | none =>
    obtain ⟨kv, hkv, hu⟩ := hq
    exact absurd hu ((checkKeys_rangeOrder_none seed u.Query).mp hc kv hkv)
  | some k =>
    exact ⟨k, by simp [resolve, hid, hc], checkKeys_rangeOrder_some seed u.Query k hc⟩

theorem resolve_of_known_keys (seed : List Nat) (d : Options) (u : URL) (id : Int)
    (hid : ParseInt u.Host = .ok id) (hq : ∀ kv ∈ u.Query, ¬ unknownKey kv.1) :
    resolve seed d u =
      if (overlay d u.Query).conn.Driver = "" ∨ (overlay d u.Query).conn.DataSource = "" ∨
          (overlay d u.Query).Table = "" ∨ (overlay d u.Query).MasterKeyURL = "" then
        .error .mustSupplyFour
      else .ok (id, overlay d u.Query) := by
  simp only [resolve, hid, (checkKeys_rangeOrder_none seed u.Query).mpr hq]

theorem overlay_field_empty (dflt v : String) :
    (if v ≠ "" then v else dflt) = "" ↔ v = "" ∧ dflt = "" := by
  by_cases hv : v = ""
  · simp [hv]
  · simp [hv]

/-- C3, amended: a locator with a query key outside the four known ones and a
parseable key id fails, whatever the defaults and the registry, with the
invalid-query-parameter error naming a key of the locator that is outside the
known set, and the state is untouched; when the key id does not parse, the
call fails with the key-id error instead. -/
theorem openKeeperURL_unknown_query_key (env : Env) (s : State) (u : URL)
    (hq : ∃ kv ∈ u.Query, unknownKey kv.1) :
    (∀ id, ParseInt u.Host = .ok id →
      ∃ k, OpenKeeperURL env s u = (.error (.invalidQueryParameter k), s) ∧
        (∃ v, (k, v) ∈ u.Query) ∧ unknownKey k) ∧
    (∀ err, ParseInt u.Host = .error err →
      OpenKeeperURL env s u = (.error (.couldNotParseId u.Path err), s)) := by
  constructor
  · intro id hid
    obtain ⟨k, hk, hmem, hu⟩ := resolve_of_unknown_key env.rangeSeed s.defaultOptions u id hid hq
    exact ⟨k, OpenKeeperURL_of_resolve_error env s u _ hk, hmem, hu⟩
  · intro err herr
    exact OpenKeeperURL_of_resolve_error env s u _ (resolve_of_parse_error _ _ u err herr)

/-- C3, the claim as stated fails: locator `badIdURL` has the unknown query key
`colour`, and `OpenKeeperURL` fails on it with the key-id error, not with the
invalid-query-parameter error. -/
theorem openKeeperURL_unknown_query_key_bad_id :
    (∃ kv ∈ badIdURL.Query, unknownKey kv.1) ∧
    (OpenKeeperURL envOk (State.init []) badIdURL).1 = .error (.couldNotParseId "" .ErrSyntax) ∧
    ∀ k, (OpenKeeperURL envOk (State.init []) badIdURL).1 ≠ .error (.invalidQueryParameter k) := by
  refine ⟨⟨("colour", "red"), by decide, by decide⟩, by decide, ?_⟩
  intro k
  have h : (OpenKeeperURL envOk (State.init []) badIdURL).1
      = .error (.couldNotParseId "" .ErrSyntax) := by decide
  rw [h]
  simp

theorem openKeeperURL_unknown_query_key_witness :
    (∃ k, OpenKeeperURL envOk demoState twoUnknownURL = (.error (.invalidQueryParameter k), demoState) ∧
        (∃ v, (k, v) ∈ twoUnknownURL.Query) ∧ unknownKey k) :=
  (openKeeperURL_unknown_query_key envOk demoState twoUnknownURL
    ⟨("colour", "red"), by decide, by decide⟩).1 20190803 (by decide)

/-- C4: for a locator with a parseable key id and only known query keys,
`OpenKeeperURL` fails with the missing-configuration error exactly when one of
driver, ds, table or master_key_url is empty both in the query and in the
defaults; that failure leaves the state, trace of lookups and constructions
included, as it was; and with all defaults empty every locator without driver,
ds or master_key_url fails so. -/
theorem openKeeperURL_missing_configuration (env : Env) (s : State) (u : URL) (id : Int)
    (hid : ParseInt u.Host = .ok id) (hq : ∀ kv ∈ u.Query, ¬ unknownKey kv.1) :
    ((OpenKeeperURL env s u).1 = .error .mustSupplyFour ↔
      ((u.Query.Get "driver" = "" ∧ s.defaultOptions.conn.Driver = "") ∨
       (u.Query.Get "ds" = "" ∧ s.defaultOptions.conn.DataSource = "") ∨
       (u.Query.Get "table" = "" ∧ s.defaultOptions.Table = "") ∨
       (u.Query.Get "master_key_url" = "" ∧ s.defaultOptions.MasterKeyURL = ""))) ∧
    ((OpenKeeperURL env s u).1 = .error .mustSupplyFour → (OpenKeeperURL env s u).2 = s) ∧
    (s.defaultOptions = Options.zero →
      (u.Query.Get "driver" = "" ∨ u.Query.Get "ds" = "" ∨ u.Query.Get "master_key_url" = "") →
      OpenKeeperURL env s u = (.error .mustSupplyFour, s)) := by
  have hres := resolve_of_known_keys env.rangeSeed s.defaultOptions u id hid hq
  have hempty : ((overlay s.defaultOptions u.Query).conn.Driver = "" ∨
      (overlay s.defaultOptions u.Query).conn.DataSource = "" ∨
      (overlay s.defaultOptions u.Query).Table = "" ∨
      (overlay s.defaultOptions u.Query).MasterKeyURL = "") ↔
      ((u.Query.Get "driver" = "" ∧ s.defaultOptions.conn.Driver = "") ∨
       (u.Query.Get "ds" = "" ∧ s.defaultOptions.conn.DataSource = "") ∨
       (u.Query.Get "table" = "" ∧ s.defaultOptions.Table = "") ∨
       (u.Query.Get "master_key_url" = "" ∧ s.defaultOptions.MasterKeyURL = "")) := by
    simp only [overlay, overlay_field_empty]
  have hiff : (OpenKeeperURL env s u).1 = .error .mustSupplyFour ↔
      ((overlay s.defaultOptions u.Query).conn.Driver = "" ∨
      (overlay s.defaultOptions u.Query).conn.DataSource = "" ∨
      (overlay s.defaultOptions u.Query).Table = "" ∨
      (overlay s.defaultOptions u.Query).MasterKeyURL = "") := by
    constructor
    · intro h
      by_contra hne
      rw [if_neg hne] at hres
      rcases OpenKeeperURL_error_of_resolve_ok env s u id _ _ hres h with ⟨m, hm⟩ | ⟨m, hm⟩ | ⟨m, hm⟩
        <;> cases hm
    · intro h
      rw [if_pos h] at hres
      rw [OpenKeeperURL_of_resolve_error env s u _ hres]
  refine ⟨hiff.trans hempty, ?_, ?_⟩
  · intro h
    have h2 := hiff.mp h
    rw [if_pos h2] at hres
    rw [OpenKeeperURL_of_resolve_error env s u _ hres]
  · intro hz hmiss
    have h2 : (overlay s.defaultOptions u.Query).conn.Driver = "" ∨
      (overlay s.defaultOptions u.Query).conn.DataSource = "" ∨
      (overlay s.defaultOptions u.Query).Table = "" ∨
      (overlay s.defaultOptions u.Query).MasterKeyURL = "" := by
      rw [hempty, hz]
      simp only [Options.zero, and_true]
      tauto
    rw [if_pos h2] at hres
    exact OpenKeeperURL_of_resolve_error env s u _ hres

/-- C4 at a concrete input: the bare locator of the demo on a fresh process. -/
theorem openKeeperURL_missing_configuration_witness :
    OpenKeeperURL envOk (State.init []) demoKeyURL = (.error .mustSupplyFour, State.init []) :=
  (openKeeperURL_missing_configuration envOk (State.init []) demoKeyURL 20190803 (by decide)
    (by decide)).2.2 rfl (Or.inl (by decide))

/-- The connection identity a locator of `Init` or `Register` names. -/
theorem setDefaults_conn (s : State) (q : Values) :
    (setDefaults s q).defaultOptions.conn = ⟨q.Get "driver", q.Get "ds"⟩ := rfl

theorem Init_missing (env : Env) (s : State) (u : URL)
    (h : u.Query.Get "driver" = "" ∨ u.Query.Get "ds" = "" ∨ u.Query.Get "master_key_url" = "") :
    Init env s (.ok u) = (some .mustSupplyThree, setDefaults s u.Query) := by
  simp only [Init]
  rw [if_pos]
  simpa [setDefaults] using h

theorem Register_missing (s : State) (u : URL) (x : Engine)
    (h : u.Query.Get "driver" = "" ∨ u.Query.Get "ds" = "" ∨ u.Query.Get "master_key_url" = "") :
    Register s (.ok u) x = (some .mustSupplyThree, setDefaults s u.Query) := by
  simp only [Register]
  rw [if_pos]
  simpa [setDefaults] using h

theorem Init_present (env : Env) (s : State) (u : URL) (x0 : Engine)
    (hd : u.Query.Get "driver" ≠ "") (hds : u.Query.Get "ds" ≠ "")
    (hm : u.Query.Get "master_key_url" ≠ "")
    (hp : mapGet s.engines ⟨u.Query.Get "driver", u.Query.Get "ds"⟩ = some x0) :
    Init env s (.ok u) =
      (some (.alreadyInitialized ⟨u.Query.Get "driver", u.Query.Get "ds"⟩),
       (setDefaults s u.Query).log (.lookup ⟨u.Query.Get "driver", u.Query.Get "ds"⟩)) := by
  simp only [Init]
  rw [if_neg (by simp [setDefaults, hd, hds, hm])]
  simp only [readCheck]
  have : mapGet (setDefaults s u.Query).engines (setDefaults s u.Query).defaultOptions.conn
      = some x0 := hp
  rw [this]
  rfl

theorem Register_present (s : State) (u : URL) (x x0 : Engine)
    (hd : u.Query.Get "driver" ≠ "") (hds : u.Query.Get "ds" ≠ "")
    (hm : u.Query.Get "master_key_url" ≠ "")
    (hp : mapGet s.engines ⟨u.Query.Get "driver", u.Query.Get "ds"⟩ = some x0) :
    Register s (.ok u) x =
      (some (.alreadyInitialized ⟨u.Query.Get "driver", u.Query.Get "ds"⟩),
       (setDefaults s u.Query).log (.lookup ⟨u.Query.Get "driver", u.Query.Get "ds"⟩)) := by
  simp only [Register]
  rw [if_neg (by simp [setDefaults, hd, hds, hm])]
  simp only [readCheck]
  have : mapGet (setDefaults s u.Query).engines (setDefaults s u.Query).defaultOptions.conn
      = some x0 := hp
  rw [this]
  rfl

theorem Init_newEngine_failed (env : Env) (s : State) (u : URL) (msg : String)
    (hd : u.Query.Get "driver" ≠ "") (hds : u.Query.Get "ds" ≠ "")
    (hm : u.Query.Get "master_key_url" ≠ "")
    (hp : mapGet s.engines ⟨u.Query.Get "driver", u.Query.Get "ds"⟩ = none)
    (he : env.newEngineErr = some msg) :
    Init env s (.ok u) =
      (some (.newEngine msg),
       { defaultOptions :=
           ⟨⟨u.Query.Get "driver", u.Query.Get "ds"⟩,
            if u.Query.Get "table" = "" then "secret_key" else u.Query.Get "table",
            u.Query.Get "master_key_url"⟩,
         engines := s.engines,
         nextPtr := s.nextPtr,
         rows := s.rows,
         trace := s.trace ++ [.lookup ⟨u.Query.Get "driver", u.Query.Get "ds"⟩,
           .newEngineFailed ⟨u.Query.Get "driver", u.Query.Get "ds"⟩] }) := by
  simp only [Init]
  rw [if_neg (by simp [setDefaults, hd, hds, hm])]
  simp only [readCheck]
  have : mapGet (setDefaults s u.Query).engines (setDefaults s u.Query).defaultOptions.conn
      = none := hp
  rw [this]
  simp [NewEngine, he, setDefaultTable, setDefaults, State.log]

theorem Init_installed (env : Env) (s : State) (u : URL)
    (hd : u.Query.Get "driver" ≠ "") (hds : u.Query.Get "ds" ≠ "")
    (hm : u.Query.Get "master_key_url" ≠ "")
    (hp : mapGet s.engines ⟨u.Query.Get "driver", u.Query.Get "ds"⟩ = none)
    (he : env.newEngineErr = none) :
    Init env s (.ok u) =
      (none,
       { defaultOptions :=
           ⟨⟨u.Query.Get "driver", u.Query.Get "ds"⟩,
            if u.Query.Get "table" = "" then "secret_key" else u.Query.Get "table",
            u.Query.Get "master_key_url"⟩,
         engines :=
           (⟨u.Query.Get "driver", u.Query.Get "ds"⟩,
            ⟨s.nextPtr, u.Query.Get "driver", u.Query.Get "ds"⟩) :: s.engines,
         nextPtr := s.nextPtr + 1,
         rows := s.rows,
         trace := s.trace ++ [.lookup ⟨u.Query.Get "driver", u.Query.Get "ds"⟩,
           .newEngine ⟨s.nextPtr, u.Query.Get "driver", u.Query.Get "ds"⟩,
           .lookup ⟨u.Query.Get "driver", u.Query.Get "ds"⟩,
           .install ⟨u.Query.Get "driver", u.Query.Get "ds"⟩
             ⟨s.nextPtr, u.Query.Get "driver", u.Query.Get "ds"⟩] }) := by
  simp only [Init]
  rw [if_neg (by simp [setDefaults, hd, hds, hm])]
  simp only [readCheck]
  have : mapGet (setDefaults s u.Query).engines (setDefaults s u.Query).defaultOptions.conn
      = none := hp
  rw [this]
  simp [NewEngine, he, setDefaultTable, setDefaults, State.log, initInstall, hp]

theorem Register_installed (s : State) (u : URL) (x : Engine)
    (hd : u.Query.Get "driver" ≠ "") (hds : u.Query.Get "ds" ≠ "")
    (hm : u.Query.Get "master_key_url" ≠ "")
    (hp : mapGet s.engines ⟨u.Query.Get "driver", u.Query.Get "ds"⟩ = none) :
    Register s (.ok u) x =
      (none,
       { defaultOptions :=
           ⟨⟨u.Query.Get "driver", u.Query.Get "ds"⟩,
            if u.Query.Get "table" = "" then "secret_key" else u.Query.Get "table",
            u.Query.Get "master_key_url"⟩,
         engines := (⟨u.Query.Get "driver", u.Query.Get "ds"⟩, x) :: s.engines,
         nextPtr := s.nextPtr,
         rows := s.rows,
         trace := s.trace ++ [.lookup ⟨u.Query.Get "driver", u.Query.Get "ds"⟩,
           .lookup ⟨u.Query.Get "driver", u.Query.Get "ds"⟩,
           .install ⟨u.Query.Get "driver", u.Query.Get "ds"⟩ x] }) := by
  simp only [Register]
  rw [if_neg (by simp [setDefaults, hd, hds, hm])]
  simp only [readCheck]
  have : mapGet (setDefaults s u.Query).engines (setDefaults s u.Query).defaultOptions.conn
      = none := hp
  rw [this]
  simp [setDefaultTable, setDefaults, State.log, registerInstall, hp]

/-- After an `Init` that returns `nil` the default table is the table of its
locator, or `secret_key` when the locator has none. -/
theorem Init_ok_table (env : Env) (s s1 : State) (u : URL) (h : Init env s (.ok u) = (none, s1)) :
    s1.defaultOptions.Table = if u.Query.Get "table" = "" then "secret_key" else u.Query.Get "table" := by
  by_cases hmiss : u.Query.Get "driver" = "" ∨ u.Query.Get "ds" = "" ∨ u.Query.Get "master_key_url" = ""
  · rw [Init_missing env s u hmiss] at h
    simp at h
  · simp only [not_or] at hmiss
    obtain ⟨hd, hds, hm⟩ := hmiss
    cases hp : mapGet s.engines ⟨u.Query.Get "driver", u.Query.Get "ds"⟩ with
    | some x0 =>
      rw [Init_present env s u x0 hd hds hm hp] at h
      simp at h
    | none =>
      cases he : env.newEngineErr with
      | some msg =>
        rw [Init_newEngine_failed env s u msg hd hds hm hp he] at h
        simp at h
      | none =>
        rw [Init_installed env s u hd hds hm hp he] at h
        have h2 := (Prod.mk.inj h).2
        rw [← h2]

theorem Register_ok_table (s s1 : State) (u : URL) (x : Engine)
    (h : Register s (.ok u) x = (none, s1)) :
    s1.defaultOptions.Table = if u.Query.Get "table" = "" then "secret_key" else u.Query.Get "table" := by
  by_cases hmiss : u.Query.Get "driver" = "" ∨ u.Query.Get "ds" = "" ∨ u.Query.Get "master_key_url" = ""
  · rw [Register_missing s u x hmiss] at h
    simp at h
  · simp only [not_or] at hmiss
    obtain ⟨hd, hds, hm⟩ := hmiss
    cases hp : mapGet s.engines ⟨u.Query.Get "driver", u.Query.Get "ds"⟩ with
    | some x0 =>
      rw [Register_present s u x x0 hd hds hm hp] at h
      simp at h
    | none =>
      rw [Register_installed s u x hd hds hm hp] at h
      have h2 := (Prod.mk.inj h).2
      rw [← h2]

theorem resolve_no_table (seed : List Nat) (d : Options) (u : URL) (id : Int)
    (hid : ParseInt u.Host = .ok id) (hq : ∀ kv ∈ u.Query, ¬ unknownKey kv.1)
    (hd : u.Query.Get "driver" ≠ "") (hds : u.Query.Get "ds" ≠ "")
    (hm : u.Query.Get "master_key_url" ≠ "") (ht : u.Query.Get "table" = "") :
    resolve seed d u =
      if d.Table = "" then .error .mustSupplyFour
      else .ok (id, ⟨⟨u.Query.Get "driver", u.Query.Get "ds"⟩, d.Table,
        u.Query.Get "master_key_url"⟩) := by
  rw [resolve_of_known_keys seed d u id hid hq]
  simp [overlay, hd, hds, hm, ht]

/-- C5, amended: for a locator that supplies non-empty driver, ds and
master_key_url and no table, the resolved table is the table of the default
configuration: the locator resolves with that table when it is not empty, in
particular with `secret_key` in the state left by an `Init` or `Register` that
returned `nil` on a locator without table; when the default table is empty, as
it is before any `Init` or `Register`, the call is rejected with the
missing-configuration error and the state is untouched. -/
theorem openKeeperURL_table_from_defaults (env : Env) (s : State) (u : URL) (id : Int)
    (hid : ParseInt u.Host = .ok id) (hq : ∀ kv ∈ u.Query, ¬ unknownKey kv.1)
    (hd : u.Query.Get "driver" ≠ "") (hds : u.Query.Get "ds" ≠ "")
    (hm : u.Query.Get "master_key_url" ≠ "") (ht : u.Query.Get "table" = "") :
    (s.defaultOptions.Table ≠ "" →
      resolve env.rangeSeed s.defaultOptions u =
        .ok (id, ⟨⟨u.Query.Get "driver", u.Query.Get "ds"⟩, s.defaultOptions.Table,
          u.Query.Get "master_key_url"⟩)) ∧
    (∀ env0 s0 u0, u0.Query.Get "table" = "" → Init env0 s0 (.ok u0) = (none, s) →
      resolve env.rangeSeed s.defaultOptions u =
        .ok (id, ⟨⟨u.Query.Get "driver", u.Query.Get "ds"⟩, "secret_key",
          u.Query.Get "master_key_url"⟩)) ∧
    (∀ s0 u0 x, u0.Query.Get "table" = "" → Register s0 (.ok u0) x = (none, s) →
      resolve env.rangeSeed s.defaultOptions u =
        .ok (id, ⟨⟨u.Query.Get "driver", u.Query.Get "ds"⟩, "secret_key",
          u.Query.Get "master_key_url"⟩)) ∧
    (s.defaultOptions.Table = "" → OpenKeeperURL env s u = (.error .mustSupplyFour, s)) := by
  have hres := resolve_no_table env.rangeSeed s.defaultOptions u id hid hq hd hds hm ht
  refine ⟨?_, ?_, ?_, ?_⟩
  · intro hne
    rw [hres, if_neg hne]
  · intro env0 s0 u0 ht0 hinit
    have htab := Init_ok_table env0 s0 s u0 hinit
    rw [if_pos ht0] at htab
    rw [hres, htab]
    simp
  · intro s0 u0 x ht0 hreg
    have htab := Register_ok_table s0 s u0 x hreg
    rw [if_pos ht0] at htab
    rw [hres, htab]
    simp
  · intro he
    rw [if_pos he] at hres
    exact OpenKeeperURL_of_resolve_error env s u _ hres

/-- C5, the claim as stated fails: before any `Init` or `Register` the locator
`noTableURL`, which supplies driver, ds and master_key_url and no table, is
rejected with the missing-configuration error: its table is empty, not
`secret_key`. -/
theorem openKeeperURL_no_table_fresh_process :
    noTableURL.Query.Get "driver" ≠ "" ∧ noTableURL.Query.Get "ds" ≠ "" ∧
    noTableURL.Query.Get "master_key_url" ≠ "" ∧ (∀ v, ("table", v) ∉ noTableURL.Query) ∧
    (overlay (State.init []).defaultOptions noTableURL.Query).Table = "" ∧
    OpenKeeperURL envOk (State.init []) noTableURL = (.error .mustSupplyFour, State.init []) := by
  refine ⟨by decide, by decide, by decide, ?_, by decide, by decide⟩
  intro v hv
  simp [noTableURL, demoRegisterURL] at hv

/-- C5 at a concrete input: after the `Register` of the demo, `noTableURL`
resolves with table `secret_key`. -/
theorem openKeeperURL_table_from_defaults_witness :
    resolve envOk.rangeSeed demoState.defaultOptions noTableURL =
      .ok (20190803, ⟨⟨noTableURL.Query.Get "driver", noTableURL.Query.Get "ds"⟩, "secret_key",
          noTableURL.Query.Get "master_key_url"⟩) :=
  (openKeeperURL_table_from_defaults envOk demoState noTableURL 20190803 (by decide) (by decide)
    (by decide) (by decide) (by decide) (by decide)).2.2.1 (State.init []) demoRegisterURL
    demoEngine (by decide) rfl

theorem acquire_defaultOptions (err : Option String) (s : State) (c : connector) :
    (acquire err s c).2.defaultOptions = s.defaultOptions := by
  unfold acquire readCheck
  cases hm : mapGet s.engines c with
  | some x => rfl
  | none =>
    cases err with
    | some msg => rfl
    | none => simp [NewEngine, writeCheck, State.log, hm]

theorem findOrCreate_defaultOptions (env : Env) (s : State) (u : URL) (id : Int) (opts : Options)
    (x : Engine) : (findOrCreate env s u id opts x).2.defaultOptions = s.defaultOptions := by
  unfold findOrCreate
  split
  · rfl
  · split
    · split <;> rfl
    · split
      · rfl
      · split <;> rfl

theorem OpenKeeperURL_defaultOptions (env : Env) (s : State) (u : URL) :
    (OpenKeeperURL env s u).2.defaultOptions = s.defaultOptions := by
  unfold OpenKeeperURL
  cases hr : resolve env.rangeSeed s.defaultOptions u with
  | error e => rfl
  | ok r =>
    obtain ⟨id, opts⟩ := r
    simp only
    cases ha : acquire env.newEngineErr s opts.conn with
    | mk r1 s1 =>
      have h1 : s1.defaultOptions = s.defaultOptions := by
        have := acquire_defaultOptions env.newEngineErr s opts.conn
        rw [ha] at this
        exact this
      cases r1 with
      | error e => simpa using h1
      | ok x =>
        simp only
        rw [findOrCreate_defaultOptions, h1]

theorem resolve_invalid_key (seed : List Nat) (d : Options) (u : URL) (k : String)
    (h : resolve seed d u = .error (.invalidQueryParameter k)) :
    (∃ id, ParseInt u.Host = .ok id) ∧ checkKeys (rangeOrder seed u.Query.keys) = some k := by
  unfold resolve at h
  cases hid : ParseInt u.Host with
  | error err => simp [hid] at h
  | ok id =>
    refine ⟨⟨id, rfl⟩, ?_⟩
    simp only [hid] at h
    cases hc : checkKeys (rangeOrder seed u.Query.keys) with
    | some k2 =>
      simp only [hc] at h
      have : k2 = k := by simpa using h
      rw [this]
    | none =>
      simp only [hc] at h
      split at h <;> simp at h

theorem resolve_seed_irrelevant (seed1 seed2 : List Nat) (d : Options) (u : URL)
    (h : checkKeys (rangeOrder seed1 u.Query.keys) = checkKeys (rangeOrder seed2 u.Query.keys)) :
    resolve seed1 d u = resolve seed2 d u := by
  unfold resolve
  rw [h]

theorem checkKeys_rangeOrder_none_seed (seed1 seed2 : List Nat) (q : Values)
    (h : checkKeys (rangeOrder seed1 q.keys) = none) :
    checkKeys (rangeOrder seed2 q.keys) = none :=
  (checkKeys_rangeOrder_none seed2 q).mpr ((checkKeys_rangeOrder_none seed1 q).mp h)

/-- C8, amended: the parsing part of `OpenKeeperURL` is a function of the
locator, the defaults and the order in which the loop over the query map meets
the keys.  Two runs agree on a resolved (id, configuration) and on every error
other than the invalid-query-parameter error; when one run fails with the
invalid-query-parameter error so does the other, each naming a key of the
locator outside the known set, and the two name the same key when the locator
has at most one such key.  A failure of this part leaves the state as it was,
and no call of `OpenKeeperURL` changes the default configuration. -/
theorem resolve_deterministic_up_to_named_key (seed1 seed2 : List Nat) (d : Options) (u : URL) :
    (∀ r, resolve seed1 d u = .ok r → resolve seed2 d u = .ok r) ∧
    (∀ e, (∀ k, e ≠ .invalidQueryParameter k) → resolve seed1 d u = .error e →
      resolve seed2 d u = .error e) ∧
    (∀ k1, resolve seed1 d u = .error (.invalidQueryParameter k1) →
      ∃ k2, resolve seed2 d u = .error (.invalidQueryParameter k2) ∧
        unknownKey k1 ∧ unknownKey k2 ∧ (∃ v, (k1, v) ∈ u.Query) ∧ (∃ v, (k2, v) ∈ u.Query)) ∧
    ((∀ kv1 ∈ u.Query, ∀ kv2 ∈ u.Query, unknownKey kv1.1 → unknownKey kv2.1 → kv1.1 = kv2.1) →
      resolve seed1 d u = resolve seed2 d u) ∧
    (∀ env s e, resolve env.rangeSeed s.defaultOptions u = .error e →
      OpenKeeperURL env s u = (.error e, s)) ∧
    (∀ env s, (OpenKeeperURL env s u).2.defaultOptions = s.defaultOptions) := by
  have hcases : (∃ k, checkKeys (rangeOrder seed1 u.Query.keys) = some k) ∨
      resolve seed1 d u = resolve seed2 d u := by
    cases hc : checkKeys (rangeOrder seed1 u.Query.keys) with
    | some k => exact Or.inl ⟨k, rfl⟩
    | none =>
      right
      apply resolve_seed_irrelevant
      rw [hc, checkKeys_rangeOrder_none_seed seed1 seed2 u.Query hc]
  have hsome : ∀ k, checkKeys (rangeOrder seed1 u.Query.keys) = some k →
      (∃ err, resolve seed1 d u = .error (.couldNotParseId u.Path err) ∧
        resolve seed2 d u = .error (.couldNotParseId u.Path err)) ∨
      (resolve seed1 d u = .error (.invalidQueryParameter k) ∧
        ∃ k2, checkKeys (rangeOrder seed2 u.Query.keys) = some k2 ∧
          resolve seed2 d u = .error (.invalidQueryParameter k2)) := by
    intro k hk
    cases hid : ParseInt u.Host with
    | error err =>
      exact Or.inl ⟨err, resolve_of_parse_error _ _ _ _ hid, resolve_of_parse_error _ _ _ _ hid⟩
    | ok id =>
      right
      refine ⟨by simp [resolve, hid, hk], ?_⟩
      cases hc2 : checkKeys (rangeOrder seed2 u.Query.keys) with
      | none =>
        rw [checkKeys_rangeOrder_none_seed seed2 seed1 u.Query hc2] at hk
        cases hk
      | some k2 => exact ⟨k2, rfl, by simp [resolve, hid, hc2]⟩
  refine ⟨?_, ?_, ?_, ?_, ?_, ?_⟩
  · intro r hr
    rcases hcases with ⟨k, hk⟩ | heq
    · rcases hsome k hk with ⟨err, h1, _⟩ | ⟨h1, _⟩ <;> rw [h1] at hr <;> cases hr
    · rw [← heq]; exact hr
  · intro e hne he
    rcases hcases with ⟨k, hk⟩ | heq
    · rcases hsome k hk with ⟨err, h1, h2⟩ | ⟨h1, _⟩
      · rw [h1] at he; rw [h2]; exact he
      · rw [h1] at he
        cases he
        exact absurd rfl (hne k)
    · rw [← heq]; exact he
  · intro k1 h1
    obtain ⟨_, hc1⟩ := resolve_invalid_key seed1 d u k1 h1
    rcases hsome k1 hc1 with ⟨err, h1', _⟩ | ⟨_, k2, hc2, h2⟩
    · rw [h1'] at h1; cases h1
    · have hk1 := checkKeys_rangeOrder_some seed1 u.Query k1 hc1
      have hk2 := checkKeys_rangeOrder_some seed2 u.Query k2 hc2
      exact ⟨k2, h2, hk1.2, hk2.2, hk1.1, hk2.1⟩
  · intro huniq
    rcases hcases with ⟨k, hk⟩ | heq
    · apply resolve_seed_irrelevant
      cases hc2 : checkKeys (rangeOrder seed2 u.Query.keys) with
      | none =>
        rw [checkKeys_rangeOrder_none_seed seed2 seed1 u.Query hc2] at hk
        cases hk
      | some k2 =>
        have hk1 := checkKeys_rangeOrder_some seed1 u.Query k hk
        have hk2 := checkKeys_rangeOrder_some seed2 u.Query k2 hc2
        obtain ⟨v1, hv1⟩ := hk1.1
        obtain ⟨v2, hv2⟩ := hk2.1
        have := huniq (k, v1) hv1 (k2, v2) hv2 hk1.2 hk2.2
        simp only at this
        rw [hk, this]
    · exact heq
  · intro env s e he
    exact OpenKeeperURL_of_resolve_error env s u e he
  · intro env s
    exact OpenKeeperURL_defaultOptions env s u

/-- C8, the claim as stated fails: locator `twoUnknownURL` has two unknown
query keys, and two runs on the same default configuration, whose loops meet
the keys of the query map in different orders, name different keys. -/
theorem resolve_names_different_keys :
    resolve envOk.rangeSeed Options.zero twoUnknownURL = .error (.invalidQueryParameter "colour") ∧
    resolve envOk2.rangeSeed Options.zero twoUnknownURL = .error (.invalidQueryParameter "size") ∧
    (OpenKeeperURL envOk (State.init []) twoUnknownURL).1 ≠
      (OpenKeeperURL envOk2 (State.init []) twoUnknownURL).1 := by
  decide

/-- C8 at a concrete input: a run on `twoUnknownURL` that names `colour` and a
second run, which names an unknown key of the locator as well. -/
theorem resolve_deterministic_up_to_named_key_witness :
    ∃ k2, resolve envOk2.rangeSeed Options.zero twoUnknownURL = .error (.invalidQueryParameter k2) ∧
        unknownKey "colour" ∧ unknownKey k2 ∧ (∃ v, ("colour", v) ∈ twoUnknownURL.Query) ∧
        (∃ v, (k2, v) ∈ twoUnknownURL.Query) :=
  (resolve_deterministic_up_to_named_key envOk.rangeSeed envOk2.rangeSeed Options.zero
    twoUnknownURL).2.2.1 "colour" (by decide)

theorem Init_defaults (env : Env) (s : State) (u : URL) :
    (Init env s (.ok u)).2.defaultOptions.conn = ⟨u.Query.Get "driver", u.Query.Get "ds"⟩ ∧
    (Init env s (.ok u)).2.defaultOptions.MasterKeyURL = u.Query.Get "master_key_url" := by
  by_cases hmiss : u.Query.Get "driver" = "" ∨ u.Query.Get "ds" = "" ∨ u.Query.Get "master_key_url" = ""
  · rw [Init_missing env s u hmiss]
    exact ⟨rfl, rfl⟩
  · simp only [not_or] at hmiss
    obtain ⟨hd, hds, hm⟩ := hmiss
    cases hp : mapGet s.engines ⟨u.Query.Get "driver", u.Query.Get "ds"⟩ with
    | some x0 =>
      rw [Init_present env s u x0 hd hds hm hp]
      exact ⟨rfl, rfl⟩
    | none =>
      cases he : env.newEngineErr with
      | some msg =>
        rw [Init_newEngine_failed env s u msg hd hds hm hp he]
        exact ⟨rfl, rfl⟩
      | none =>
        rw [Init_installed env s u hd hds hm hp he]
        exact ⟨rfl, rfl⟩

theorem Register_defaults (s : State) (u : URL) (x : Engine) :
    (Register s (.ok u) x).2.defaultOptions.conn = ⟨u.Query.Get "driver", u.Query.Get "ds"⟩ ∧
    (Register s (.ok u) x).2.defaultOptions.MasterKeyURL = u.Query.Get "master_key_url" := by
  by_cases hmiss : u.Query.Get "driver" = "" ∨ u.Query.Get "ds" = "" ∨ u.Query.Get "master_key_url" = ""
  · rw [Register_missing s u x hmiss]
    exact ⟨rfl, rfl⟩
  · simp only [not_or] at hmiss
    obtain ⟨hd, hds, hm⟩ := hmiss
    cases hp : mapGet s.engines ⟨u.Query.Get "driver", u.Query.Get "ds"⟩ with
    | some x0 =>
      rw [Register_present s u x x0 hd hds hm hp]
      exact ⟨rfl, rfl⟩
    | none =>
      rw [Register_installed s u x hd hds hm hp]
      exact ⟨rfl, rfl⟩

/-- C10: `Init` and `Register` overwrite the default driver, ds and
master_key_url with the query values of the call (empty when absent) whatever
the call returns; a call rejected by the missing-parameter check or by the
first already-initialized check leaves exactly those defaults with the table
unchanged, which is what `OpenKeeperURL` overlays afterwards; so the bare
locator of the demo, which resolves after the demo's `Register`, resolves with
another master key after a rejected `Init` and fails with the
missing-configuration error after a rejected `Register`. -/
theorem init_register_defaults_not_atomic :
    (∀ env s u,
      (Init env s (.ok u)).2.defaultOptions.conn = ⟨u.Query.Get "driver", u.Query.Get "ds"⟩ ∧
      (Init env s (.ok u)).2.defaultOptions.MasterKeyURL = u.Query.Get "master_key_url") ∧
    (∀ s u x,
      (Register s (.ok u) x).2.defaultOptions.conn = ⟨u.Query.Get "driver", u.Query.Get "ds"⟩ ∧
      (Register s (.ok u) x).2.defaultOptions.MasterKeyURL = u.Query.Get "master_key_url") ∧
    (∀ env s u x,
      (u.Query.Get "driver" = "" ∨ u.Query.Get "ds" = "" ∨ u.Query.Get "master_key_url" = "") →
      Init env s (.ok u) = (some .mustSupplyThree, setDefaults s u.Query) ∧
      Register s (.ok u) x = (some .mustSupplyThree, setDefaults s u.Query)) ∧
    (∀ env s u x x0,
      u.Query.Get "driver" ≠ "" → u.Query.Get "ds" ≠ "" → u.Query.Get "master_key_url" ≠ "" →
      mapGet s.engines ⟨u.Query.Get "driver", u.Query.Get "ds"⟩ = some x0 →
      Init env s (.ok u) =
        (some (.alreadyInitialized ⟨u.Query.Get "driver", u.Query.Get "ds"⟩),
         (setDefaults s u.Query).log (.lookup ⟨u.Query.Get "driver", u.Query.Get "ds"⟩)) ∧
      Register s (.ok u) x =
        (some (.alreadyInitialized ⟨u.Query.Get "driver", u.Query.Get "ds"⟩),
         (setDefaults s u.Query).log (.lookup ⟨u.Query.Get "driver", u.Query.Get "ds"⟩))) ∧
    (∀ s q, (setDefaults s q).defaultOptions =
      ⟨⟨q.Get "driver", q.Get "ds"⟩, s.defaultOptions.Table, q.Get "master_key_url"⟩) ∧
    (resolve [] demoState.defaultOptions demoKeyURL = .ok (20190803, demoOptions) ∧
      (Init envOk demoState (.ok otherMasterURL)).1 = some (.alreadyInitialized demoConn) ∧
      resolve [] (Init envOk demoState (.ok otherMasterURL)).2.defaultOptions demoKeyURL =
        .ok (20190803, { demoOptions with MasterKeyURL := otherMasterURL.Query.Get "master_key_url" }) ∧
      otherMasterURL.Query.Get "master_key_url" ≠ demoOptions.MasterKeyURL) ∧
    ((Register demoState (.ok noQueryURL) demoEngine).1 = some .mustSupplyThree ∧
      (OpenKeeperURL envOk (Register demoState (.ok noQueryURL) demoEngine).2 demoKeyURL).1 =
        .error .mustSupplyFour) := by
  refine ⟨Init_defaults, Register_defaults, ?_, ?_, fun _ _ => rfl, by decide, by decide⟩
  · intro env s u x h
    exact ⟨Init_missing env s u h, Register_missing s u x h⟩
  · intro env s u x x0 hd hds hm hp
    exact ⟨Init_present env s u x0 hd hds hm hp, Register_present s u x x0 hd hds hm hp⟩

/-- C10 at a concrete input: the `Init` with another master key on the state
of the demo is rejected and leaves the other master key in the defaults. -/
theorem init_register_defaults_not_atomic_witness :
    Init envOk demoState (.ok otherMasterURL) =
      (some (.alreadyInitialized ⟨otherMasterURL.Query.Get "driver", otherMasterURL.Query.Get "ds"⟩),
       (setDefaults demoState otherMasterURL.Query).log
         (.lookup ⟨otherMasterURL.Query.Get "driver", otherMasterURL.Query.Get "ds"⟩)) :=
  (init_register_defaults_not_atomic.2.2.2.1 envOk demoState otherMasterURL demoEngine demoEngine
    (by decide) (by decide) (by decide) (by decide)).1

theorem acquire_present (err : Option String) (s : State) (c : connector) (x0 : Engine)
    (h : mapGet s.engines c = some x0) : acquire err s c = (.ok x0, s.log (.lookup c)) := by
  simp [acquire, readCheck, h]

theorem acquire_newEngine_failed (s : State) (c : connector) (msg : String)
    (h : mapGet s.engines c = none) :
    acquire (some msg) s c =
      (.error (.newEngine msg),
       { s with trace := s.trace ++ [.lookup c, .newEngineFailed c] }) := by
  simp [acquire, readCheck, h, NewEngine, State.log]

theorem acquire_installed (s : State) (c : connector) (h : mapGet s.engines c = none) :
    acquire none s c =
      (.ok ⟨s.nextPtr, c.Driver, c.DataSource⟩,
       { s with engines := (c, ⟨s.nextPtr, c.Driver, c.DataSource⟩) :: s.engines,
                nextPtr := s.nextPtr + 1,
                trace := s.trace ++ [.lookup c, .newEngine ⟨s.nextPtr, c.Driver, c.DataSource⟩,
                  .lookup c, .install c ⟨s.nextPtr, c.Driver, c.DataSource⟩] }) := by
  simp [acquire, readCheck, h, NewEngine, State.log, writeCheck]

theorem mapGet_cons_of_absent (m : List (connector × Engine)) (c c1 : connector) (x x1 : Engine)
    (habs : mapGet m c = none) (h : mapGet m c1 = some x1) : mapGet ((c, x) :: m) c1 = some x1 := by
  have hne : c ≠ c1 := by
    intro heq
    rw [heq, h] at habs
    cases habs
  simp [mapGet, hne, h]

theorem mapGet_cons_self (m : List (connector × Engine)) (c : connector) (x : Engine) :
    mapGet ((c, x) :: m) c = some x := by
  simp [mapGet]

theorem findOrCreate_engines (env : Env) (s : State) (u : URL) (id : Int) (opts : Options)
    (x : Engine) :
    (findOrCreate env s u id opts x).2.engines = s.engines ∧
    (findOrCreate env s u id opts x).2.nextPtr = s.nextPtr ∧
    ∃ evs, (findOrCreate env s u id opts x).2.trace = s.trace ++ evs ∧
      ∀ ev ∈ evs, ev = .get x opts.Table id ∨ ev = .newRandomKey ∨
        ∃ r, ev = .insertOne x opts.Table r := by
  unfold findOrCreate
  split
  · exact ⟨rfl, rfl, _, rfl, by simp⟩
  · split
    · split
      · exact ⟨rfl, rfl, _, rfl, by simp⟩
      · exact ⟨rfl, rfl, _, rfl, by simp⟩
    · split
      · exact ⟨rfl, rfl, _, rfl, by simp⟩
      · split
        · exact ⟨rfl, rfl, _, rfl, by simp⟩
        · exact ⟨rfl, rfl, _, rfl, by simp⟩

theorem acquire_effect (err : Option String) (s : State) (c : connector) :
    ((acquire err s c).2.engines = s.engines ∨
      ∃ x, mapGet s.engines c = none ∧ (acquire err s c).2.engines = (c, x) :: s.engines) ∧
    ∃ evs, (acquire err s c).2.trace = s.trace ++ evs ∧ ∀ x, Event.close x ∉ evs := by
  cases hm : mapGet s.engines c with
  | some x0 =>
    rw [acquire_present err s c x0 hm]
    exact ⟨Or.inl rfl, _, rfl, by simp⟩
  | none =>
    cases err with
    | some msg =>
      rw [acquire_newEngine_failed s c msg hm]
      exact ⟨Or.inl rfl, _, rfl, by simp⟩
    | none =>
      rw [acquire_installed s c hm]
      exact ⟨Or.inr ⟨_, rfl, rfl⟩, _, rfl, by simp⟩

theorem OpenKeeperURL_effect (env : Env) (s : State) (u : URL) :
    ((OpenKeeperURL env s u).2.engines = s.engines ∨
      ∃ c x, mapGet s.engines c = none ∧ (OpenKeeperURL env s u).2.engines = (c, x) :: s.engines) ∧
    ∃ evs, (OpenKeeperURL env s u).2.trace = s.trace ++ evs ∧ ∀ x, Event.close x ∉ evs := by
  unfold OpenKeeperURL
  cases hr : resolve env.rangeSeed s.defaultOptions u with
  | error e => exact ⟨Or.inl rfl, [], by simp, by simp⟩
  | ok r =>
    obtain ⟨id, opts⟩ := r
    simp only
    obtain ⟨hae, evs, hat, hac⟩ := acquire_effect env.newEngineErr s opts.conn
    cases ha : acquire env.newEngineErr s opts.conn with
    | mk r1 s1 =>
      rw [ha] at hae hat
      simp only at hae hat
      cases r1 with
      | error e =>
        simp only
        refine ⟨?_, evs, hat, hac⟩
        rcases hae with h | ⟨x, h1, h2⟩
        · exact Or.inl h
        · exact Or.inr ⟨_, x, h1, h2⟩
      | ok x1 =>
        simp only
        obtain ⟨hfe, _, evs2, hft, hfc⟩ := findOrCreate_engines env s1 u id opts x1
        refine ⟨?_, evs ++ evs2, ?_, ?_⟩
        · rw [hfe]
          rcases hae with h | ⟨x, h1, h2⟩
          · exact Or.inl h
          · exact Or.inr ⟨_, x, h1, h2⟩
        · rw [hft, hat, List.append_assoc]
        · intro x hx
          rcases List.mem_append.mp hx with h | h
          · exact hac x h
          · rcases hfc _ h with h1 | h1 | ⟨r, h1⟩ <;> cases h1

theorem Init_effect (env : Env) (s : State) (parsed : Except String URL) :
    ((Init env s parsed).2.engines = s.engines ∨
      ∃ c x, mapGet s.engines c = none ∧ (Init env s parsed).2.engines = (c, x) :: s.engines) ∧
    ∃ evs, (Init env s parsed).2.trace = s.trace ++ evs ∧ ∀ x, Event.close x ∉ evs := by
  cases parsed with
  | error msg => exact ⟨Or.inl rfl, [], by simp [Init], by simp⟩
  | ok u =>
    by_cases hmiss : u.Query.Get "driver" = "" ∨ u.Query.Get "ds" = "" ∨
        u.Query.Get "master_key_url" = ""
    · rw [Init_missing env s u hmiss]
      exact ⟨Or.inl rfl, [], by simp [setDefaults], by simp⟩
    · simp only [not_or] at hmiss
      obtain ⟨hd, hds, hm⟩ := hmiss
      cases hp : mapGet s.engines ⟨u.Query.Get "driver", u.Query.Get "ds"⟩ with
      | some x0 =>
        rw [Init_present env s u x0 hd hds hm hp]
        exact ⟨Or.inl rfl, _, rfl, by simp⟩
      | none =>
        cases he : env.newEngineErr with
        | some msg =>
          rw [Init_newEngine_failed env s u msg hd hds hm hp he]
          exact ⟨Or.inl rfl, _, rfl, by simp⟩
        | none =>
          rw [Init_installed env s u hd hds hm hp he]
          exact ⟨Or.inr ⟨_, _, hp, rfl⟩, _, rfl, by simp⟩

theorem Register_effect (s : State) (parsed : Except String URL) (x : Engine) :
    ((Register s parsed x).2.engines = s.engines ∨
      ∃ c x1, mapGet s.engines c = none ∧ (Register s parsed x).2.engines = (c, x1) :: s.engines) ∧
    ∃ evs, (Register s parsed x).2.trace = s.trace ++ evs ∧ ∀ x1, Event.close x1 ∉ evs := by
  cases parsed with
  | error msg => exact ⟨Or.inl rfl, [], by simp [Register], by simp⟩
  | ok u =>
    by_cases hmiss : u.Query.Get "driver" = "" ∨ u.Query.Get "ds" = "" ∨
        u.Query.Get "master_key_url" = ""
    · rw [Register_missing s u x hmiss]
      exact ⟨Or.inl rfl, [], by simp [setDefaults], by simp⟩
    · simp only [not_or] at hmiss
      obtain ⟨hd, hds, hm⟩ := hmiss
      cases hp : mapGet s.engines ⟨u.Query.Get "driver", u.Query.Get "ds"⟩ with
      | some x0 =>
        rw [Register_present s u x x0 hd hds hm hp]
        exact ⟨Or.inl rfl, _, rfl, by simp⟩
      | none =>
        rw [Register_installed s u x hd hds hm hp]
        exact ⟨Or.inr ⟨_, _, hp, rfl⟩, _, rfl, by simp⟩

theorem Call_effect (s : State) (call : Call) :
    ((call.run s).engines = s.engines ∨
      ∃ c x, mapGet s.engines c = none ∧ (call.run s).engines = (c, x) :: s.engines) ∧
    ∃ evs, (call.run s).trace = s.trace ++ evs ∧ ∀ x, Event.close x ∉ evs := by
  cases call with
  | init env parsed => exact Init_effect env s parsed
  | register parsed x => exact Register_effect s parsed x
  | openKeeper env u => exact OpenKeeperURL_effect env s u

/-- C9: a call of `Init`, `Register` or `OpenKeeperURL`, whatever it returns,
keeps every entry of the registry (same identity, same engine), adds at most
one entry, under an identity that had none, and closes no engine; `Register`
on a present identity returns the already-initialized error and keeps the
registry, so the engine installed before stays; `OpenKeeperURL` on a present
identity constructs no engine and runs its lookup and insert on the cached
engine. -/
theorem registry_stable (s : State) (call : Call) :
    (∀ c x, mapGet s.engines c = some x → mapGet (call.run s).engines c = some x) ∧
    ((call.run s).engines = s.engines ∨
      ∃ c x, mapGet s.engines c = none ∧ (call.run s).engines = (c, x) :: s.engines) ∧
    (∃ evs, (call.run s).trace = s.trace ++ evs ∧ ∀ x, Event.close x ∉ evs) ∧
    (∀ u x x0, u.Query.Get "driver" ≠ "" → u.Query.Get "ds" ≠ "" →
      u.Query.Get "master_key_url" ≠ "" →
      mapGet s.engines ⟨u.Query.Get "driver", u.Query.Get "ds"⟩ = some x0 →
      (Register s (.ok u) x).1 =
        some (.alreadyInitialized ⟨u.Query.Get "driver", u.Query.Get "ds"⟩) ∧
      (Register s (.ok u) x).2.engines = s.engines ∧
      mapGet (Register s (.ok u) x).2.engines ⟨u.Query.Get "driver", u.Query.Get "ds"⟩ =
        some x0) ∧
    (∀ env u id opts x0, resolve env.rangeSeed s.defaultOptions u = .ok (id, opts) →
      mapGet s.engines opts.conn = some x0 →
      OpenKeeperURL env s u = findOrCreate env (s.log (.lookup opts.conn)) u id opts x0 ∧
      (OpenKeeperURL env s u).2.engines = s.engines ∧
      (OpenKeeperURL env s u).2.nextPtr = s.nextPtr ∧
      ∃ evs, (OpenKeeperURL env s u).2.trace = s.trace ++ .lookup opts.conn :: evs ∧
        ∀ ev ∈ evs, ev = .get x0 opts.Table id ∨ ev = .newRandomKey ∨
          ∃ r, ev = .insertOne x0 opts.Table r) := by
  obtain ⟨heng, htrace⟩ := Call_effect s call
  refine ⟨?_, heng, htrace, ?_, ?_⟩
  · intro c x hc
    rcases heng with h | ⟨c1, x1, habs, h⟩
    · rw [h]; exact hc
    · rw [h]; exact mapGet_cons_of_absent _ _ _ _ _ habs hc
  · intro u x x0 hd hds hm hp
    rw [Register_present s u x x0 hd hds hm hp]
    exact ⟨rfl, rfl, hp⟩
  · intro env u id opts x0 hr hp
    have hopen : OpenKeeperURL env s u = findOrCreate env (s.log (.lookup opts.conn)) u id opts x0 := by
      simp only [OpenKeeperURL, hr, acquire_present env.newEngineErr s opts.conn x0 hp]
    obtain ⟨h1, h2, evs, h3, h4⟩ :=
      findOrCreate_engines env (s.log (.lookup opts.conn)) u id opts x0
    rw [hopen]
    refine ⟨rfl, h1, h2, evs, ?_, h4⟩
    rw [h3]
    simp [State.log]

/-- C9 at a concrete input: the bare locator of the demo on the state of the
demo uses the registered engine. -/
theorem registry_stable_witness :
    OpenKeeperURL envOk demoState demoKeyURL =
      findOrCreate envOk (demoState.log (.lookup demoOptions.conn)) demoKeyURL 20190803
        demoOptions demoEngine :=
  ((registry_stable demoState (.openKeeper envOk demoKeyURL)).2.2.2.2 envOk demoKeyURL 20190803
    demoOptions demoEngine (by decide) (by decide)).1

/-- C2: on a registry without the identity of locator `u1`, an `Init` with
non-empty driver, ds and master_key_url whose engine construction succeeds
returns `nil` and installs a fresh engine under that identity; a second `Init`
with the same driver and ds and a non-empty master_key_url fails with the
already-initialized error and keeps the registry; an `Init` with another
identity, absent from the registry, then returns `nil` as well, and the
registry is the former one with two more entries, one per identity, holding
two different engines, the first as it was installed. -/
theorem init_registration_idempotency (env1 env2 env3 : Env) (s : State) (u1 u2 u3 : URL)
    (hd1 : u1.Query.Get "driver" ≠ "") (hds1 : u1.Query.Get "ds" ≠ "")
    (hm1 : u1.Query.Get "master_key_url" ≠ "") (he1 : env1.newEngineErr = none)
    (habs1 : mapGet s.engines ⟨u1.Query.Get "driver", u1.Query.Get "ds"⟩ = none)
    (hd2 : u2.Query.Get "driver" = u1.Query.Get "driver")
    (hds2 : u2.Query.Get "ds" = u1.Query.Get "ds") (hm2 : u2.Query.Get "master_key_url" ≠ "")
    (hd3 : u3.Query.Get "driver" ≠ "") (hds3 : u3.Query.Get "ds" ≠ "")
    (hm3 : u3.Query.Get "master_key_url" ≠ "") (he3 : env3.newEngineErr = none)
    (hdiff : (⟨u3.Query.Get "driver", u3.Query.Get "ds"⟩ : connector) ≠
      ⟨u1.Query.Get "driver", u1.Query.Get "ds"⟩)
    (habs3 : mapGet s.engines ⟨u3.Query.Get "driver", u3.Query.Get "ds"⟩ = none) :
    (Init env1 s (.ok u1)).1 = none ∧
    (Init env1 s (.ok u1)).2.engines =
      (⟨u1.Query.Get "driver", u1.Query.Get "ds"⟩,
       ⟨s.nextPtr, u1.Query.Get "driver", u1.Query.Get "ds"⟩) :: s.engines ∧
    (Init env2 (Init env1 s (.ok u1)).2 (.ok u2)).1 =
      some (.alreadyInitialized ⟨u1.Query.Get "driver", u1.Query.Get "ds"⟩) ∧
    (Init env2 (Init env1 s (.ok u1)).2 (.ok u2)).2.engines = (Init env1 s (.ok u1)).2.engines ∧
    (Init env3 (Init env2 (Init env1 s (.ok u1)).2 (.ok u2)).2 (.ok u3)).1 = none ∧
    (Init env3 (Init env2 (Init env1 s (.ok u1)).2 (.ok u2)).2 (.ok u3)).2.engines =
      (⟨u3.Query.Get "driver", u3.Query.Get "ds"⟩,
       ⟨s.nextPtr + 1, u3.Query.Get "driver", u3.Query.Get "ds"⟩) ::
      (⟨u1.Query.Get "driver", u1.Query.Get "ds"⟩,
       ⟨s.nextPtr, u1.Query.Get "driver", u1.Query.Get "ds"⟩) :: s.engines ∧
    mapGet (Init env3 (Init env2 (Init env1 s (.ok u1)).2 (.ok u2)).2 (.ok u3)).2.engines
      ⟨u1.Query.Get "driver", u1.Query.Get "ds"⟩ =
      some ⟨s.nextPtr, u1.Query.Get "driver", u1.Query.Get "ds"⟩ ∧
    mapGet (Init env3 (Init env2 (Init env1 s (.ok u1)).2 (.ok u2)).2 (.ok u3)).2.engines
      ⟨u3.Query.Get "driver", u3.Query.Get "ds"⟩ =
      some ⟨s.nextPtr + 1, u3.Query.Get "driver", u3.Query.Get "ds"⟩ ∧
    (s.engines = [] →
      (Init env3 (Init env2 (Init env1 s (.ok u1)).2 (.ok u2)).2 (.ok u3)).2.engines.length = 2) := by
  have h1 := Init_installed env1 s u1 hd1 hds1 hm1 habs1 he1
  have hd2' : u2.Query.Get "driver" ≠ "" := by rw [hd2]; exact hd1
  have hds2' : u2.Query.Get "ds" ≠ "" := by rw [hds2]; exact hds1
  have hp2 : mapGet (Init env1 s (.ok u1)).2.engines ⟨u2.Query.Get "driver", u2.Query.Get "ds"⟩
      = some ⟨s.nextPtr, u1.Query.Get "driver", u1.Query.Get "ds"⟩ := by
    rw [h1, hd2, hds2]
    exact mapGet_cons_self _ _ _
  have h2 := Init_present env2 (Init env1 s (.ok u1)).2 u2 _ hd2' hds2' hm2 hp2
  have he2 : (Init env2 (Init env1 s (.ok u1)).2 (.ok u2)).2.engines
      = (Init env1 s (.ok u1)).2.engines := by
    rw [h2]; rfl
  have hn2 : (Init env2 (Init env1 s (.ok u1)).2 (.ok u2)).2.nextPtr = s.nextPtr + 1 := by
    rw [h2, h1]; rfl
  have hp3 : mapGet (Init env2 (Init env1 s (.ok u1)).2 (.ok u2)).2.engines
      ⟨u3.Query.Get "driver", u3.Query.Get "ds"⟩ = none := by
    rw [he2, h1]
    simp only [mapGet]
    rw [if_neg (fun h => hdiff h.symm)]
    exact habs3
  have h3 := Init_installed env3 (Init env2 (Init env1 s (.ok u1)).2 (.ok u2)).2 u3 hd3 hds3 hm3
    hp3 he3
  have he3' : (Init env3 (Init env2 (Init env1 s (.ok u1)).2 (.ok u2)).2 (.ok u3)).2.engines =
      (⟨u3.Query.Get "driver", u3.Query.Get "ds"⟩,
       ⟨s.nextPtr + 1, u3.Query.Get "driver", u3.Query.Get "ds"⟩) ::
      (⟨u1.Query.Get "driver", u1.Query.Get "ds"⟩,
       ⟨s.nextPtr, u1.Query.Get "driver", u1.Query.Get "ds"⟩) :: s.engines := by
    rw [h3]
    simp only
    rw [hn2, he2, h1]
  refine ⟨by rw [h1], by rw [h1], ?_, he2, by rw [h3], he3', ?_, ?_, ?_⟩
  · rw [h2, hd2, hds2]
  · rw [he3']
    simp [mapGet, hdiff]
  · rw [he3']
    exact mapGet_cons_self _ _ _
  · intro hnil
    rw [he3', hnil]
    rfl

/-- C2 at a concrete input: on a fresh process, `Init` with the locator of the
demo, again with the same identity, then with another data source. -/
theorem init_registration_idempotency_witness :
    (Init envOk (State.init []) (.ok demoRegisterURL)).1 = none ∧
    (Init envOk2 (Init envOk (State.init []) (.ok demoRegisterURL)).2 (.ok otherMasterURL)).1 =
      some (.alreadyInitialized demoConn) ∧
    (Init envOk (Init envOk2 (Init envOk (State.init []) (.ok demoRegisterURL)).2
      (.ok otherMasterURL)).2 (.ok otherConnURL)).2.engines.length = 2 :=
  have h := init_registration_idempotency envOk envOk2 envOk (State.init []) demoRegisterURL
    otherMasterURL otherConnURL (by decide) (by decide) (by decide) rfl rfl (by decide)
    (by decide) (by decide) (by decide) (by decide) (by decide) rfl (by decide) rfl
  ⟨h.1, h.2.2.1, h.2.2.2.2.2.2.2.2 rfl⟩

theorem acquire_rows (err : Option String) (s : State) (c : connector) :
    (acquire err s c).2.rows = s.rows := by
  cases hm : mapGet s.engines c with
  | some x0 => rw [acquire_present err s c x0 hm]; rfl
  | none =>
    cases err with
    | some msg => rw [acquire_newEngine_failed s c msg hm]
    | none => rw [acquire_installed s c hm]

theorem acquire_ok_mapGet (err : Option String) (s s1 : State) (c : connector) (x : Engine)
    (h : acquire err s c = (.ok x, s1)) : mapGet s1.engines c = some x := by
  cases hm : mapGet s.engines c with
  | some x0 =>
    rw [acquire_present err s c x0 hm] at h
    obtain ⟨h1, h2⟩ := Prod.mk.inj h
    cases h1
    rw [← h2]
    exact hm
  | none =>
    cases err with
    | some msg =>
      rw [acquire_newEngine_failed s c msg hm] at h
      cases h
    | none =>
      rw [acquire_installed s c hm] at h
      obtain ⟨h1, h2⟩ := Prod.mk.inj h
      cases h1
      rw [← h2]
      exact mapGet_cons_self _ _ _

theorem getByID_none_of_fresh (rows : List Row) (x : Engine) (table : String) (id : Int)
    (h : ∀ r ∈ rows, r.record.ID ≠ id) : getByID rows x table id = none := by
  unfold getByID
  rw [Option.map_eq_none', List.find?_eq_none]
  intro r hr
  simp [h r hr]

theorem getByID_insertOne (rows : List Row) (x : Engine) (table : String) (id : Int)
    (record : SecretKey) (now : Int) (hid : record.ID = id)
    (h : getByID rows x table id = none) :
    getByID (insertOne rows x table record now) x table id =
      some { record with CreatedUnix := now } := by
  unfold getByID at h ⊢
  rw [Option.map_eq_none'] at h
  unfold insertOne
  rw [List.find?_append, h]
  simp [hid]

theorem findOrCreate_created (env : Env) (s : State) (u : URL) (id : Int) (opts : Options)
    (x : Engine) (sk : Key32) (hget : env.getErr = none)
    (hmiss : getByID s.rows x opts.Table id = none) (hrand : env.randomKey = .ok sk)
    (hins : env.insertErr = none) :
    findOrCreate env s u id opts x =
      (.ok (NewKeeper sk),
       { s with rows := insertOne s.rows x opts.Table (newRecord id opts sk) env.now,
                trace := s.trace ++ [.get x opts.Table id, .newRandomKey,
                  .insertOne x opts.Table (newRecord id opts sk)] }) := by
  simp [findOrCreate, hget, hmiss, hrand, hins]

theorem findOrCreate_found (env : Env) (s : State) (u : URL) (id : Int) (opts : Options)
    (x : Engine) (data : SecretKey) (sk : Key32) (hget : env.getErr = none)
    (hhit : getByID s.rows x opts.Table id = some data) (hdec : Base64Key data.Key.Data = .ok sk) :
    findOrCreate env s u id opts x = (.ok (NewKeeper sk), s.log (.get x opts.Table id)) := by
  simp [findOrCreate, hget, hhit, hdec]

theorem findOrCreate_ok_getErr (env : Env) (s s1 : State) (u : URL) (id : Int) (opts : Options)
    (x : Engine) (k : Keeper) (h : findOrCreate env s u id opts x = (.ok k, s1)) :
    env.getErr = none := by
  cases hg : env.getErr with
  | none => rfl
  | some msg => simp [findOrCreate, hg] at h

theorem findOrCreate_ok_of_miss (env : Env) (s s1 : State) (u : URL) (id : Int) (opts : Options)
    (x : Engine) (k : Keeper) (hmiss : getByID s.rows x opts.Table id = none)
    (h : findOrCreate env s u id opts x = (.ok k, s1)) :
    env.randomKey = .ok k.secretKey ∧ env.insertErr = none := by
  have hg := findOrCreate_ok_getErr env s s1 u id opts x k h
  cases hrand : env.randomKey with
  | error msg => simp [findOrCreate, hg, hmiss, hrand] at h
  | ok sk =>
    cases hins : env.insertErr with
    | some msg => simp [findOrCreate, hg, hmiss, hrand, hins] at h
    | none =>
      rw [findOrCreate_created env s u id opts x sk hg hmiss hrand hins] at h
      obtain ⟨h1, _⟩ := Prod.mk.inj h
      have : NewKeeper sk = k := by simpa using h1
      rw [← this]
      exact ⟨rfl, rfl⟩

theorem OpenKeeperURL_ok_acquire (env : Env) (s s1 : State) (u : URL) (id : Int) (opts : Options)
    (k : Keeper) (hr : resolve env.rangeSeed s.defaultOptions u = .ok (id, opts))
    (h : OpenKeeperURL env s u = (.ok k, s1)) :
    ∃ x sa, acquire env.newEngineErr s opts.conn = (.ok x, sa) ∧
      findOrCreate env sa u id opts x = (.ok k, s1) := by
  simp only [OpenKeeperURL, hr] at h
  cases ha : acquire env.newEngineErr s opts.conn with
  | mk r sa =>
    cases r with
    | error e => simp [ha] at h
    | ok x =>
      simp only [ha] at h
      exact ⟨x, sa, rfl, h⟩

/-- C6: when `OpenKeeperURL` misses the record and the random source gives the
32 bytes `sk`, it inserts the record with the parsed key id, the master key
URL of the resolved configuration and the standard base64 encoding of `sk` as
data, and returns a keeper of `sk`; `localsecrets.Base64Key` decodes that data
to exactly `sk`; and the lookup of the same id afterwards finds a record with
the same id, the same master key URL and data that decodes to `sk`. -/
theorem openKeeperURL_record_round_trip (env : Env) (s s1 : State) (u : URL) (id : Int)
    (opts : Options) (x : Engine) (sk : Key32)
    (hr : resolve env.rangeSeed s.defaultOptions u = .ok (id, opts))
    (ha : acquire env.newEngineErr s opts.conn = (.ok x, s1))
    (hget : env.getErr = none) (hmiss : getByID s1.rows x opts.Table id = none)
    (hrand : env.randomKey = .ok sk) (hins : env.insertErr = none) :
    OpenKeeperURL env s u =
      (.ok (NewKeeper sk),
       { s1 with
         rows := s1.rows ++ [⟨x.DriverName, x.DataSourceName, opts.Table,
           ⟨id, ⟨opts.MasterKeyURL, EncodeToString sk.val⟩, env.now⟩⟩],
         trace := s1.trace ++ [.get x opts.Table id, .newRandomKey,
           .insertOne x opts.Table ⟨id, ⟨opts.MasterKeyURL, EncodeToString sk.val⟩, 0⟩] }) ∧
    Base64Key (EncodeToString sk.val) = .ok sk ∧
    ∃ data, getByID (OpenKeeperURL env s u).2.rows x opts.Table id = some data ∧
      data.ID = id ∧ data.Key.URL = opts.MasterKeyURL ∧ Base64Key data.Key.Data = .ok sk := by
  have hopen : OpenKeeperURL env s u =
      (.ok (NewKeeper sk),
       { s1 with rows := insertOne s1.rows x opts.Table (newRecord id opts sk) env.now,
                 trace := s1.trace ++ [.get x opts.Table id, .newRandomKey,
                   .insertOne x opts.Table (newRecord id opts sk)] }) := by
    simp only [OpenKeeperURL, hr, ha]
    exact findOrCreate_created env s1 u id opts x sk hget hmiss hrand hins
  refine ⟨?_, Base64Key_EncodeToString sk, ?_⟩
  · rw [hopen]
    rfl
  · rw [hopen]
    simp only
    rw [getByID_insertOne s1.rows x opts.Table id (newRecord id opts sk) env.now rfl hmiss]
    exact ⟨_, rfl, rfl, rfl, Base64Key_EncodeToString sk⟩

/-- C6 at a concrete input: the bare locator of the demo on the state of the
demo, with the random key `key7`. -/
theorem openKeeperURL_record_round_trip_witness :
    Base64Key (EncodeToString key7.val) = .ok key7 ∧
    ∃ data, getByID (OpenKeeperURL envOk demoState demoKeyURL).2.rows demoEngine
        demoOptions.Table 20190803 = some data ∧
      data.ID = 20190803 ∧ data.Key.URL = demoOptions.MasterKeyURL ∧
      Base64Key data.Key.Data = .ok key7 :=
  (openKeeperURL_record_round_trip envOk demoState (demoState.log (.lookup demoConn)) demoKeyURL
    20190803 demoOptions demoEngine key7 (by decide) (by decide) rfl (by decide) rfl rfl).2

/-- C1: when no record of the store has key id `id`, and two locators resolve
to the same connection, table and `id`, two successful calls of
`OpenKeeperURL` in a row return keepers of the same 32 bytes, the bytes the
random source gave the first call; the second call reads the record the first
inserted, on the same engine, and inserts nothing; afterwards exactly one
record of the store has key id `id`, in the table of the configuration. -/
theorem openKeeperURL_find_or_create_idempotent (env1 env2 : Env) (s s1 s2 : State)
    (u1 u2 : URL) (id : Int) (opts1 opts2 : Options) (k1 k2 : Keeper)
    (hr1 : resolve env1.rangeSeed s.defaultOptions u1 = .ok (id, opts1))
    (hr2 : resolve env2.rangeSeed s1.defaultOptions u2 = .ok (id, opts2))
    (hconn : opts2.conn = opts1.conn) (htable : opts2.Table = opts1.Table)
    (hfresh : ∀ r ∈ s.rows, r.record.ID ≠ id)
    (h1 : OpenKeeperURL env1 s u1 = (.ok k1, s1))
    (h2 : OpenKeeperURL env2 s1 u2 = (.ok k2, s2)) :
    k2.secretKey = k1.secretKey ∧ env1.randomKey = .ok k1.secretKey ∧
    (∃ x, mapGet s1.engines opts1.conn = some x ∧
      s1.rows = s.rows ++ [⟨x.DriverName, x.DataSourceName, opts1.Table,
        ⟨id, ⟨opts1.MasterKeyURL, EncodeToString k1.secretKey.val⟩, env1.now⟩⟩] ∧
      s2.trace = s1.trace ++ [.lookup opts1.conn, .get x opts1.Table id]) ∧
    s2.rows = s1.rows ∧ s2.engines = s1.engines ∧
    (s2.rows.filter fun r => decide (r.record.ID = id)).length = 1 := by
  obtain ⟨c2, t2, m2⟩ := opts2
  simp only at hconn htable
  subst hconn htable
  obtain ⟨x, sa, ha, hf⟩ := OpenKeeperURL_ok_acquire env1 s s1 u1 id opts1 k1 hr1 h1
  have hrows : sa.rows = s.rows := by
    have := acquire_rows env1.newEngineErr s opts1.conn
    rw [ha] at this
    exact this
  have hmiss : getByID sa.rows x opts1.Table id = none := by
    rw [hrows]
    exact getByID_none_of_fresh s.rows x opts1.Table id hfresh
  have hg1 := findOrCreate_ok_getErr env1 sa s1 u1 id opts1 x k1 hf
  obtain ⟨hrand, hins⟩ := findOrCreate_ok_of_miss env1 sa s1 u1 id opts1 x k1 hmiss hf
  rw [findOrCreate_created env1 sa u1 id opts1 x k1.secretKey hg1 hmiss hrand hins] at hf
  obtain ⟨_, hs1⟩ := Prod.mk.inj hf
  have hmap : mapGet s1.engines opts1.conn = some x := by
    rw [← hs1]
    exact acquire_ok_mapGet env1.newEngineErr s sa opts1.conn x ha
  have hrows1 : s1.rows = insertOne s.rows x opts1.Table (newRecord id opts1 k1.secretKey)
      env1.now := by
    rw [← hs1, ← hrows]
  obtain ⟨x2, sb, hb, hf2⟩ := OpenKeeperURL_ok_acquire env2 s1 s2 u2 id _ k2 hr2 h2
  simp only at hb hf2
  rw [acquire_present env2.newEngineErr s1 opts1.conn x hmap] at hb
  obtain ⟨hx, hsb⟩ := Prod.mk.inj hb
  have hx' : x = x2 := Except.ok.inj hx
  subst hx'
  rw [← hsb] at hf2
  have hg2 := findOrCreate_ok_getErr env2 _ s2 u2 id _ x k2 hf2
  have hhit : getByID (s1.log (.lookup opts1.conn)).rows x opts1.Table id =
      some { newRecord id opts1 k1.secretKey with CreatedUnix := env1.now } := by
    show getByID s1.rows x opts1.Table id = _
    rw [hrows1]
    exact getByID_insertOne s.rows x opts1.Table id _ env1.now rfl
      (getByID_none_of_fresh s.rows x opts1.Table id hfresh)
  rw [findOrCreate_found env2 _ u2 id ⟨opts1.conn, opts1.Table, m2⟩ x _ k1.secretKey hg2 hhit
    (Base64Key_EncodeToString k1.secretKey)] at hf2
  obtain ⟨hk, hs2⟩ := Prod.mk.inj hf2
  have hk' : NewKeeper k1.secretKey = k2 := Except.ok.inj hk
  have hrows2 : s2.rows = s1.rows := by rw [← hs2]; rfl
  refine ⟨by rw [← hk']; rfl, hrand, ⟨x, hmap, hrows1, ?_⟩, hrows2, by rw [← hs2]; rfl, ?_⟩
  · rw [← hs2]
    simp [State.log]
  · rw [hrows2, hrows1]
    unfold insertOne
    rw [List.filter_append]
    have hnil : (s.rows.filter fun r => decide (r.record.ID = id)) = [] := by
      rw [List.filter_eq_nil_iff]
      intro r hr
      simp [hfresh r hr]
    rw [hnil]
    simp [newRecord]



/-- C1 at a concrete input: the bare locator of the demo, twice, on the state
of the demo; the random source gives `key7` to the first call and would give
`key9` to the second. -/
theorem openKeeperURL_find_or_create_idempotent_witness :
    (OpenKeeperURL envOk2 (OpenKeeperURL envOk demoState demoKeyURL).2 demoKeyURL).1 =
      .ok (NewKeeper key7) ∧
    (OpenKeeperURL envOk demoState demoKeyURL).1 = .ok (NewKeeper key7) ∧
    ((OpenKeeperURL envOk2 (OpenKeeperURL envOk demoState demoKeyURL).2 demoKeyURL).2.rows.filter
      fun r => decide (r.record.ID = 20190803)).length = 1 :=
  have h1 : OpenKeeperURL envOk demoState demoKeyURL =
      (.ok (NewKeeper key7), (OpenKeeperURL envOk demoState demoKeyURL).2) :=
    Prod.ext (by decide) rfl
  have h2 : OpenKeeperURL envOk2 (OpenKeeperURL envOk demoState demoKeyURL).2 demoKeyURL =
      (.ok (NewKeeper key7),
       (OpenKeeperURL envOk2 (OpenKeeperURL envOk demoState demoKeyURL).2 demoKeyURL).2) :=
    Prod.ext (by decide) rfl
  have h := openKeeperURL_find_or_create_idempotent envOk envOk2 demoState
    (OpenKeeperURL envOk demoState demoKeyURL).2
    (OpenKeeperURL envOk2 (OpenKeeperURL envOk demoState demoKeyURL).2 demoKeyURL).2
    demoKeyURL demoKeyURL 20190803 demoOptions demoOptions (NewKeeper key7) (NewKeeper key7)
    (by decide) (by decide) rfl rfl (by decide) h1 h2
  ⟨congrArg Prod.fst h2, congrArg Prod.fst h1, h.2.2.2.2.2⟩

theorem calls_set_getElem? (calls : List Pc) (i j : Nat) (pc pc1 : Pc)
    (h : calls[i]? = some pc) :
    (calls.set i pc1)[j]? = if i = j then some pc1 else calls[j]? := by
  rw [List.getElem?_set]
  have hlt : i < calls.length := by
    by_contra hge
    rw [List.getElem?_eq_none (Nat.le_of_not_lt hge)] at h
    cases h
  simp [hlt]

theorem ConcInv_start (c : connector) (s : State) (n : Nat) :
    ConcInv c s (Conc.start s n) [] := by
  have hpc : ∀ (j : Nat) (pc : Pc), (Conc.start s n).calls[j]? = some pc → pc = Pc.atReadCheck := by
    intro j pc h
    simp only [Conc.start, List.getElem?_replicate] at h
    split at h
    · exact (Option.some.inj h).symm
    · cases h
  constructor
  · simp [Conc.start]
  · intro x hx; simp at hx
  · intro x hx; simp at hx
  · intro c1 x hx; simp at hx
  · intro j x h; cases hpc j _ h
  · intro i j x h; cases hpc i _ h
  · intro j x h; cases hpc j _ h
  · intro j x h; cases hpc j _ h
  · exact Or.inl ⟨rfl, by simp⟩
  · intro x hx; simp at hx
  · intro x hx; simp at hx
  · intro x hx; simp at hx

/-- A step that constructs, closes and installs nothing keeps the invariant. -/
theorem ConcInv_quiet (c : connector) (s : State) (k : Conc) (evs : List Event)
    (hinv : ConcInv c s k evs) (i : Nat) (pc pc1 : Pc) (hget : k.calls[i]? = some pc)
    (hpc : ∀ x, pc ≠ Pc.atWriteCheck x) (s1 : State) (new : List Event)
    (htrace : s1.trace = k.shared.trace ++ new) (heng : s1.engines = k.shared.engines)
    (hptr : s1.nextPtr = k.shared.nextPtr)
    (hN : ∀ x, Event.newEngine x ∉ new) (hC : ∀ x, Event.close x ∉ new)
    (hI : ∀ c1 x, Event.install c1 x ∉ new)
    (hpc1 : ∀ x, pc1 ≠ Pc.atWriteCheck x)
    (hholds : ∀ x, pc1 = Pc.holds x → mapGet k.shared.engines c = some x) :
    ConcInv c s ⟨s1, k.calls.set i pc1⟩ (evs ++ new) := by
  have hset := fun j => calls_set_getElem? k.calls i j pc pc1 hget
  have mN : ∀ x, Event.newEngine x ∈ evs ++ new ↔ Event.newEngine x ∈ evs := by
    intro x; simp [hN x]
  have mC : ∀ x, Event.close x ∈ evs ++ new ↔ Event.close x ∈ evs := by
    intro x; simp [hC x]
  have mI : ∀ c1 x, Event.install c1 x ∈ evs ++ new ↔ Event.install c1 x ∈ evs := by
    intro c1 x; simp [hI c1 x]
  have hpend : ∀ (j : Nat) x, (k.calls.set i pc1)[j]? = some (Pc.atWriteCheck x) →
      k.calls[j]? = some (Pc.atWriteCheck x) := by
    intro j x h
    rw [hset j] at h
    by_cases hij : i = j
    · rw [if_pos hij] at h
      exact absurd (Option.some.inj h) (hpc1 x)
    · rw [if_neg hij] at h
      exact h
  constructor
  · show s1.trace = s.trace ++ (evs ++ new)
    rw [htrace, hinv.trace_eq, List.append_assoc]
  · intro x hx
    show x.ptr < s1.nextPtr
    rw [hptr]
    exact hinv.ptr_lt x ((mN x).mp hx)
  · intro x hx
    exact (mN x).mpr (hinv.closed_built x ((mC x).mp hx))
  · intro c1 x hx
    exact (mN x).mpr (hinv.installed_built c1 x ((mI c1 x).mp hx))
  · intro j x h
    exact (mN x).mpr (hinv.pending_built j x (hpend j x h))
  · intro a b x ha hb
    exact hinv.pending_unique a b x (hpend a x ha) (hpend b x hb)
  · intro j x h
    have := hinv.pending_open j x (hpend j x h)
    exact ⟨fun hc => this.1 ((mC x).mp hc), fun c1 hi => this.2 c1 ((mI c1 x).mp hi)⟩
  · intro j x h
    show mapGet s1.engines c = some x
    rw [heng]
    have h' : (k.calls.set i pc1)[j]? = some (Pc.holds x) := h
    rw [hset j] at h'
    by_cases hij : i = j
    · rw [if_pos hij] at h'
      exact hholds x (Option.some.inj h')
    · rw [if_neg hij] at h'
      exact hinv.holds_retained j x h'
  · show (s1.engines = s.engines ∧ _) ∨ ∃ w, s1.engines = _ ∧ _
    rw [heng]
    rcases hinv.registry with ⟨h1, h2⟩ | ⟨w, h1, h2, h3, h4, h5⟩
    · exact Or.inl ⟨h1, fun c1 x hx => h2 c1 x ((mI c1 x).mp hx)⟩
    · exact Or.inr ⟨w, h1, (mN w).mpr h2, (mI c w).mpr h3, fun hc => h4 ((mC w).mp hc),
        fun c1 x hx => h5 c1 x ((mI c1 x).mp hx)⟩
  · intro x hx
    show (∃ j : Nat, (k.calls.set i pc1)[j]? = _) ∨ mapGet s1.engines c = some x ∨ _
    rw [heng]
    rcases hinv.built_status x ((mN x).mp hx) with ⟨j, hj⟩ | h | h
    · left
      refine ⟨j, ?_⟩
      rw [hset j]
      by_cases hij : i = j
      · rw [hij] at hget
        rw [hget] at hj
        exact absurd (Option.some.inj hj) (hpc x)
      · rw [if_neg hij]
        exact hj
    · exact Or.inr (Or.inl h)
    · exact Or.inr (Or.inr ((mC x).mpr h))
  · intro x hx
    show ∃ w, mapGet s1.engines c = some w
    rw [heng]
    exact hinv.closed_retained x ((mC x).mp hx)
  · intro x hx c1 hi
    exact hinv.closed_not_installed x ((mC x).mp hx) c1 ((mI c1 x).mp hi)

/-- The construction step keeps the invariant: the candidate is new. -/
theorem ConcInv_construct (c : connector) (s : State) (k : Conc) (evs : List Event)
    (hinv : ConcInv c s k evs) (i : Nat) (hget : k.calls[i]? = some Pc.atConstruct) :
    ConcInv c s
      ⟨{ k.shared with
          nextPtr := k.shared.nextPtr + 1,
          trace := k.shared.trace ++ [.newEngine ⟨k.shared.nextPtr, c.Driver, c.DataSource⟩] },
       k.calls.set i (.atWriteCheck ⟨k.shared.nextPtr, c.Driver, c.DataSource⟩)⟩
      (evs ++ [.newEngine ⟨k.shared.nextPtr, c.Driver, c.DataSource⟩]) := by
  have hset := fun j => calls_set_getElem? k.calls i j Pc.atConstruct
    (.atWriteCheck ⟨k.shared.nextPtr, c.Driver, c.DataSource⟩) hget
  have hfreshN : Event.newEngine ⟨k.shared.nextPtr, c.Driver, c.DataSource⟩ ∉ evs := by
    intro h
    exact Nat.lt_irrefl _ (hinv.ptr_lt _ h)
  have mN : ∀ x, Event.newEngine x ∈ evs ++ [.newEngine ⟨k.shared.nextPtr, c.Driver, c.DataSource⟩]
      ↔ Event.newEngine x ∈ evs ∨ x = ⟨k.shared.nextPtr, c.Driver, c.DataSource⟩ := by
    intro x; simp
  have mC : ∀ x, Event.close x ∈ evs ++ [.newEngine ⟨k.shared.nextPtr, c.Driver, c.DataSource⟩]
      ↔ Event.close x ∈ evs := by
    intro x; simp
  have mI : ∀ c1 x, Event.install c1 x ∈
      evs ++ [.newEngine ⟨k.shared.nextPtr, c.Driver, c.DataSource⟩] ↔ Event.install c1 x ∈ evs := by
    intro c1 x; simp
  have hpend : ∀ (j : Nat) x,
      (k.calls.set i (.atWriteCheck ⟨k.shared.nextPtr, c.Driver, c.DataSource⟩))[j]? =
        some (Pc.atWriteCheck x) →
      (i = j ∧ x = ⟨k.shared.nextPtr, c.Driver, c.DataSource⟩) ∨
        (i ≠ j ∧ k.calls[j]? = some (Pc.atWriteCheck x)) := by
    intro j x h
    rw [hset j] at h
    by_cases hij : i = j
    · rw [if_pos hij] at h
      left
      refine ⟨hij, ?_⟩
      have := Option.some.inj h
      injection this with h1
      exact h1.symm
    · rw [if_neg hij] at h
      exact Or.inr ⟨hij, h⟩
  constructor
  · show k.shared.trace ++ _ = s.trace ++ (evs ++ _)
    rw [hinv.trace_eq, List.append_assoc]
  · intro x hx
    show x.ptr < k.shared.nextPtr + 1
    rcases (mN x).mp hx with h | h
    · exact Nat.lt_succ_of_lt (hinv.ptr_lt x h)
    · rw [h]; exact Nat.lt_succ_self _
  · intro x hx
    exact (mN x).mpr (Or.inl (hinv.closed_built x ((mC x).mp hx)))
  · intro c1 x hx
    exact (mN x).mpr (Or.inl (hinv.installed_built c1 x ((mI c1 x).mp hx)))
  · intro j x h
    rcases hpend j x h with ⟨_, h1⟩ | ⟨_, h1⟩
    · exact (mN x).mpr (Or.inr h1)
    · exact (mN x).mpr (Or.inl (hinv.pending_built j x h1))
  · intro a b x ha hb
    rcases hpend a x ha with ⟨ha1, ha2⟩ | ⟨ha1, ha2⟩ <;>
      rcases hpend b x hb with ⟨hb1, hb2⟩ | ⟨hb1, hb2⟩
    · rw [← ha1, ← hb1]
    · exact absurd (ha2 ▸ hinv.pending_built b x hb2) hfreshN
    · exact absurd (hb2 ▸ hinv.pending_built a x ha2) hfreshN
    · exact hinv.pending_unique a b x ha2 hb2
  · intro j x h
    rcases hpend j x h with ⟨_, h1⟩ | ⟨_, h1⟩
    · subst h1
      exact ⟨fun hc => hfreshN (hinv.closed_built _ ((mC _).mp hc)),
        fun c1 hi => hfreshN (hinv.installed_built c1 _ ((mI c1 _).mp hi))⟩
    · have := hinv.pending_open j x h1
      exact ⟨fun hc => this.1 ((mC x).mp hc), fun c1 hi => this.2 c1 ((mI c1 x).mp hi)⟩
  · intro j x h
    show mapGet k.shared.engines c = some x
    have h' : (k.calls.set i (.atWriteCheck ⟨k.shared.nextPtr, c.Driver, c.DataSource⟩))[j]? =
        some (Pc.holds x) := h
    rw [hset j] at h'
    by_cases hij : i = j
    · rw [if_pos hij] at h'
      cases Option.some.inj h'
    · rw [if_neg hij] at h'
      exact hinv.holds_retained j x h'
  · show (k.shared.engines = s.engines ∧ _) ∨ ∃ w, k.shared.engines = _ ∧ _
    rcases hinv.registry with ⟨h1, h2⟩ | ⟨w, h1, h2, h3, h4, h5⟩
    · exact Or.inl ⟨h1, fun c1 x hx => h2 c1 x ((mI c1 x).mp hx)⟩
    · exact Or.inr ⟨w, h1, (mN w).mpr (Or.inl h2), (mI c w).mpr h3, fun hc => h4 ((mC w).mp hc),
        fun c1 x hx => h5 c1 x ((mI c1 x).mp hx)⟩
  · intro x hx
    show (∃ j : Nat, (k.calls.set i _)[j]? = _) ∨ mapGet k.shared.engines c = some x ∨ _
    rcases (mN x).mp hx with h | h
    · rcases hinv.built_status x h with ⟨j, hj⟩ | h1 | h1
      · left
        refine ⟨j, ?_⟩
        rw [hset j]
        by_cases hij : i = j
        · rw [hij] at hget
          rw [hget] at hj
          cases Option.some.inj hj
        · rw [if_neg hij]
          exact hj
      · exact Or.inr (Or.inl h1)
      · exact Or.inr (Or.inr ((mC x).mpr h1))
    · left
      refine ⟨i, ?_⟩
      rw [hset i, if_pos rfl, h]
  · intro x hx
    exact hinv.closed_retained x ((mC x).mp hx)
  · intro x hx c1 hi
    exact hinv.closed_not_installed x ((mC x).mp hx) c1 ((mI c1 x).mp hi)

/-- The write check that finds an engine keeps the invariant: the candidate is
closed, the engine of the registry is another one. -/
theorem ConcInv_close (c : connector) (s : State) (k : Conc) (evs : List Event)
    (habs : mapGet s.engines c = none)
    (hinv : ConcInv c s k evs) (i : Nat) (x2 w : Engine)
    (hget : k.calls[i]? = some (Pc.atWriteCheck x2))
    (hw : mapGet k.shared.engines c = some w) :
    ConcInv c s
      ⟨{ k.shared with trace := k.shared.trace ++ [.lookup c, .close x2] },
       k.calls.set i (.holds w)⟩
      (evs ++ [.lookup c, .close x2]) := by
  have hset := fun j => calls_set_getElem? k.calls i j (Pc.atWriteCheck x2) (.holds w) hget
  have hopen := hinv.pending_open i x2 hget
  have hbuilt := hinv.pending_built i x2 hget
  obtain ⟨hreg1, hreg2, hreg3, hreg4, hreg5⟩ : k.shared.engines = (c, w) :: s.engines ∧
      Event.newEngine w ∈ evs ∧ Event.install c w ∈ evs ∧ Event.close w ∉ evs ∧
      ∀ c1 x, Event.install c1 x ∈ evs → x = w := by
    rcases hinv.registry with ⟨h1, _⟩ | ⟨w1, h1, h2, h3, h4, h5⟩
    · rw [h1, habs] at hw
      cases hw
    · have : w1 = w := by
        rw [h1, mapGet_cons_self] at hw
        exact Option.some.inj hw
      subst this
      exact ⟨h1, h2, h3, h4, h5⟩
  have hne : w ≠ x2 := by
    intro h
    rw [h] at hreg3
    exact hopen.2 c hreg3
  have mN : ∀ x, Event.newEngine x ∈ evs ++ [.lookup c, .close x2] ↔ Event.newEngine x ∈ evs := by
    intro x; simp
  have mC : ∀ x, Event.close x ∈ evs ++ [.lookup c, .close x2] ↔
      Event.close x ∈ evs ∨ x = x2 := by
    intro x; simp
  have mI : ∀ c1 x, Event.install c1 x ∈ evs ++ [.lookup c, .close x2] ↔
      Event.install c1 x ∈ evs := by
    intro c1 x; simp
  have hpend : ∀ (j : Nat) x, (k.calls.set i (.holds w))[j]? = some (Pc.atWriteCheck x) →
      i ≠ j ∧ k.calls[j]? = some (Pc.atWriteCheck x) := by
    intro j x h
    rw [hset j] at h
    by_cases hij : i = j
    · rw [if_pos hij] at h
      cases Option.some.inj h
    · rw [if_neg hij] at h
      exact ⟨hij, h⟩
  constructor
  · show k.shared.trace ++ _ = s.trace ++ (evs ++ _)
    rw [hinv.trace_eq, List.append_assoc]
  · intro x hx
    exact hinv.ptr_lt x ((mN x).mp hx)
  · intro x hx
    rcases (mC x).mp hx with h | h
    · exact (mN x).mpr (hinv.closed_built x h)
    · rw [h]; exact (mN x2).mpr hbuilt
  · intro c1 x hx
    exact (mN x).mpr (hinv.installed_built c1 x ((mI c1 x).mp hx))
  · intro j x h
    exact (mN x).mpr (hinv.pending_built j x (hpend j x h).2)
  · intro a b x ha hb
    exact hinv.pending_unique a b x (hpend a x ha).2 (hpend b x hb).2
  · intro j x h
    obtain ⟨hij, hj⟩ := hpend j x h
    have := hinv.pending_open j x hj
    refine ⟨fun hc => ?_, fun c1 hi => this.2 c1 ((mI c1 x).mp hi)⟩
    rcases (mC x).mp hc with h1 | h1
    · exact this.1 h1
    · rw [h1] at hj
      exact hij (hinv.pending_unique i j x2 hget hj)
  · intro j x h
    show mapGet k.shared.engines c = some x
    have h' : (k.calls.set i (.holds w))[j]? = some (Pc.holds x) := h
    rw [hset j] at h'
    by_cases hij : i = j
    · rw [if_pos hij] at h'
      have := Option.some.inj h'
      injection this with h1
      rw [← h1]
      exact hw
    · rw [if_neg hij] at h'
      exact hinv.holds_retained j x h'
  · right
    refine ⟨w, hreg1, (mN w).mpr hreg2, (mI c w).mpr hreg3, ?_, fun c1 x hx => hreg5 c1 x ((mI c1 x).mp hx)⟩
    intro hc
    rcases (mC w).mp hc with h | h
    · exact hreg4 h
    · exact hne h
  · intro x hx
    show (∃ j : Nat, (k.calls.set i (.holds w))[j]? = _) ∨ mapGet k.shared.engines c = some x ∨ _
    rcases hinv.built_status x ((mN x).mp hx) with ⟨j, hj⟩ | h1 | h1
    · by_cases hij : i = j
      · right; right
        rw [hij] at hget
        rw [hget] at hj
        have := Option.some.inj hj
        injection this with h2
        exact (mC x).mpr (Or.inr h2.symm)
      · left
        refine ⟨j, ?_⟩
        rw [hset j, if_neg hij]
        exact hj
    · exact Or.inr (Or.inl h1)
    · exact Or.inr (Or.inr ((mC x).mpr (Or.inl h1)))
  · intro x _
    exact ⟨w, hw⟩
  · intro x hx c1 hi
    rcases (mC x).mp hx with h | h
    · exact hinv.closed_not_installed x h c1 ((mI c1 x).mp hi)
    · rw [h] at hi
      exact hopen.2 c1 ((mI c1 x2).mp hi)

/-- The write check that finds no engine keeps the invariant: the candidate
becomes the engine of the registry. -/
theorem ConcInv_install (c : connector) (s : State) (k : Conc) (evs : List Event)
    (hinv : ConcInv c s k evs) (i : Nat) (x2 : Engine)
    (hget : k.calls[i]? = some (Pc.atWriteCheck x2))
    (hw : mapGet k.shared.engines c = none) :
    ConcInv c s
      ⟨{ k.shared with engines := (c, x2) :: k.shared.engines,
                       trace := k.shared.trace ++ [.lookup c, .install c x2] },
       k.calls.set i (.holds x2)⟩
      (evs ++ [.lookup c, .install c x2]) := by
  have hset := fun j => calls_set_getElem? k.calls i j (Pc.atWriteCheck x2) (.holds x2) hget
  have hopen := hinv.pending_open i x2 hget
  have hbuilt := hinv.pending_built i x2 hget
  obtain ⟨hreg1, hreg2⟩ : k.shared.engines = s.engines ∧ ∀ c1 x, Event.install c1 x ∉ evs := by
    rcases hinv.registry with h | ⟨w1, h1, _⟩
    · exact h
    · rw [h1, mapGet_cons_self] at hw
      cases hw
  have hnoclose : ∀ x, Event.close x ∉ evs := by
    intro x hx
    obtain ⟨w, hw1⟩ := hinv.closed_retained x hx
    rw [hw] at hw1
    cases hw1
  have mN : ∀ x, Event.newEngine x ∈ evs ++ [.lookup c, .install c x2] ↔
      Event.newEngine x ∈ evs := by
    intro x; simp
  have mC : ∀ x, Event.close x ∈ evs ++ [.lookup c, .install c x2] ↔ Event.close x ∈ evs := by
    intro x; simp
  have mI : ∀ c1 x, Event.install c1 x ∈ evs ++ [.lookup c, .install c x2] ↔
      Event.install c1 x ∈ evs ∨ (c1 = c ∧ x = x2) := by
    intro c1 x; simp
  have hpend : ∀ (j : Nat) x, (k.calls.set i (.holds x2))[j]? = some (Pc.atWriteCheck x) →
      i ≠ j ∧ k.calls[j]? = some (Pc.atWriteCheck x) := by
    intro j x h
    rw [hset j] at h
    by_cases hij : i = j
    · rw [if_pos hij] at h
      cases Option.some.inj h
    · rw [if_neg hij] at h
      exact ⟨hij, h⟩
  constructor
  · show k.shared.trace ++ _ = s.trace ++ (evs ++ _)
    rw [hinv.trace_eq, List.append_assoc]
  · intro x hx
    exact hinv.ptr_lt x ((mN x).mp hx)
  · intro x hx
    exact absurd ((mC x).mp hx) (hnoclose x)
  · intro c1 x hx
    rcases (mI c1 x).mp hx with h | ⟨_, h⟩
    · exact absurd h (hreg2 c1 x)
    · rw [h]; exact (mN x2).mpr hbuilt
  · intro j x h
    exact (mN x).mpr (hinv.pending_built j x (hpend j x h).2)
  · intro a b x ha hb
    exact hinv.pending_unique a b x (hpend a x ha).2 (hpend b x hb).2
  · intro j x h
    obtain ⟨hij, hj⟩ := hpend j x h
    refine ⟨fun hc => hnoclose x ((mC x).mp hc), fun c1 hi => ?_⟩
    rcases (mI c1 x).mp hi with h1 | ⟨_, h1⟩
    · exact hreg2 c1 x h1
    · rw [h1] at hj
      exact hij (hinv.pending_unique i j x2 hget hj)
  · intro j x h
    show mapGet ((c, x2) :: k.shared.engines) c = some x
    have h' : (k.calls.set i (.holds x2))[j]? = some (Pc.holds x) := h
    rw [hset j] at h'
    by_cases hij : i = j
    · rw [if_pos hij] at h'
      have := Option.some.inj h'
      injection this with h1
      rw [← h1]
      exact mapGet_cons_self _ _ _
    · rw [if_neg hij] at h'
      have := hinv.holds_retained j x h'
      rw [hw] at this
      cases this
  · right
    refine ⟨x2, ?_, (mN x2).mpr hbuilt, (mI c x2).mpr (Or.inr ⟨rfl, rfl⟩),
      fun hc => hnoclose x2 ((mC x2).mp hc), ?_⟩
    · show (c, x2) :: k.shared.engines = (c, x2) :: s.engines
      rw [hreg1]
    · intro c1 x hx
      rcases (mI c1 x).mp hx with h | ⟨_, h⟩
      · exact absurd h (hreg2 c1 x)
      · exact h
  · intro x hx
    show (∃ j : Nat, (k.calls.set i (.holds x2))[j]? = _) ∨
      mapGet ((c, x2) :: k.shared.engines) c = some x ∨ _
    rcases hinv.built_status x ((mN x).mp hx) with ⟨j, hj⟩ | h1 | h1
    · by_cases hij : i = j
      · right; left
        rw [hij] at hget
        rw [hget] at hj
        have := Option.some.inj hj
        injection this with h2
        rw [← h2]
        exact mapGet_cons_self _ _ _
      · left
        refine ⟨j, ?_⟩
        rw [hset j, if_neg hij]
        exact hj
    · rw [hw] at h1
      cases h1
    · exact absurd h1 (hnoclose x)
  · intro x hx
    exact absurd ((mC x).mp hx) (hnoclose x)
  · intro x hx
    exact absurd ((mC x).mp hx) (hnoclose x)

theorem ConcInv_step (c : connector) (s : State) (k : Conc) (evs : List Event)
    (habs : mapGet s.engines c = none) (hinv : ConcInv c s k evs) (i : Nat)
    (err : Option String) : ∃ evs1, ConcInv c s (k.step c i err) evs1 := by
  unfold Conc.step
  cases hget : k.calls[i]? with
  | none => exact ⟨evs, hinv⟩
  | some pc =>
    cases pc with
    | atReadCheck =>
      cases hm : mapGet k.shared.engines c with
      | some x =>
        refine ⟨evs ++ [.lookup c], ?_⟩
        simp only [stepCall, readCheck, hm]
        exact ConcInv_quiet c s k evs hinv i _ _ hget (by simp) _ [.lookup c] rfl rfl rfl
          (by simp) (by simp) (by simp) (by simp)
          (fun y hy => by injection hy with h1; rw [← h1]; exact hm)
      | none =>
        refine ⟨evs ++ [.lookup c], ?_⟩
        simp only [stepCall, readCheck, hm]
        exact ConcInv_quiet c s k evs hinv i _ _ hget (by simp) _ [.lookup c] rfl rfl rfl
          (by simp) (by simp) (by simp) (by simp) (by simp)
    | atConstruct =>
      cases err with
      | some msg =>
        refine ⟨evs ++ [.newEngineFailed c], ?_⟩
        simp only [stepCall, NewEngine]
        exact ConcInv_quiet c s k evs hinv i _ _ hget (by simp) _ [.newEngineFailed c] rfl rfl rfl
          (by simp) (by simp) (by simp) (by simp) (by simp)
      | none =>
        refine ⟨evs ++ [.newEngine ⟨k.shared.nextPtr, c.Driver, c.DataSource⟩], ?_⟩
        simp only [stepCall, NewEngine]
        exact ConcInv_construct c s k evs hinv i hget
    | atWriteCheck x2 =>
      cases hm : mapGet k.shared.engines c with
      | some w =>
        refine ⟨evs ++ [.lookup c, .close x2], ?_⟩
        simp only [stepCall, writeCheck, hm]
        exact ConcInv_close c s k evs habs hinv i x2 w hget hm
      | none =>
        refine ⟨evs ++ [.lookup c, .install c x2], ?_⟩
        simp only [stepCall, writeCheck, hm]
        exact ConcInv_install c s k evs hinv i x2 hget hm
    | returned msg =>
      refine ⟨evs ++ [], ?_⟩
      simp only [stepCall]
      exact ConcInv_quiet c s k evs hinv i _ _ hget (by simp) _ [] (by simp) rfl rfl
        (by simp) (by simp) (by simp) (by simp) (by simp)
    | holds x =>
      refine ⟨evs ++ [], ?_⟩
      simp only [stepCall]
      exact ConcInv_quiet c s k evs hinv i _ _ hget (by simp) _ [] (by simp) rfl rfl
        (by simp) (by simp) (by simp) (by simp)
        (fun y hy => by
          injection hy with h1
          rw [← h1]
          exact hinv.holds_retained i x hget)

theorem ConcInv_run (c : connector) (s : State) (habs : mapGet s.engines c = none)
    (sched : List (Nat × Option String)) :
    ∀ (k : Conc) (evs : List Event), ConcInv c s k evs →
      ∃ evs1, ConcInv c s (Conc.run c k sched) evs1 := by
  induction sched with
  | nil => intro k evs h; exact ⟨evs, h⟩
  | cons st rest ih =>
    intro k evs h
    obtain ⟨i, err⟩ := st
    obtain ⟨evs1, h1⟩ := ConcInv_step c s k evs habs h i err
    exact ih _ evs1 h1

theorem Conc_step_length (c : connector) (k : Conc) (i : Nat) (err : Option String) :
    (k.step c i err).calls.length = k.calls.length := by
  unfold Conc.step
  cases k.calls[i]? with
  | none => rfl
  | some pc => simp

theorem Conc_run_length (c : connector) (sched : List (Nat × Option String)) :
    ∀ k : Conc, (Conc.run c k sched).calls.length = k.calls.length := by
  induction sched with
  | nil => intro k; rfl
  | cons st rest ih =>
    intro k
    obtain ⟨i, err⟩ := st
    simp only [Conc.run]
    rw [ih, Conc_step_length]

theorem stepCall_remaining (c : connector) (err : Option String) (s : State) (pc : Pc) :
    (stepCall c err s pc).1.remaining ≤ pc.remaining - 1 := by
  cases pc with
  | atReadCheck =>
    simp only [stepCall, readCheck]
    cases mapGet s.engines c <;> simp [Pc.remaining]
  | atConstruct =>
    cases err <;> simp [stepCall, NewEngine, Pc.remaining]
  | atWriteCheck x2 => simp [stepCall, Pc.remaining]
  | returned msg => simp [stepCall, Pc.remaining]
  | holds x => simp [stepCall, Pc.remaining]

theorem Conc_step_remaining (c : connector) (k : Conc) (j : Nat) (err : Option String) (i : Nat)
    (pc : Pc) (h : (k.step c j err).calls[i]? = some pc) :
    ∃ pc0, k.calls[i]? = some pc0 ∧
      pc.remaining ≤ pc0.remaining - (if j = i then 1 else 0) := by
  unfold Conc.step at h
  cases hget : k.calls[j]? with
  | none =>
    rw [hget] at h
    simp only at h
    have hji : j ≠ i := by
      intro e
      rw [e, h] at hget
      cases hget
    exact ⟨pc, h, by rw [if_neg hji]; omega⟩
  | some pcj =>
    rw [hget] at h
    simp only at h
    rw [calls_set_getElem? k.calls j i pcj _ hget] at h
    by_cases hji : j = i
    · rw [if_pos hji] at h
      refine ⟨pcj, hji ▸ hget, ?_⟩
      rw [if_pos hji, ← Option.some.inj h]
      exact stepCall_remaining c err k.shared pcj
    · rw [if_neg hji] at h
      exact ⟨pc, h, by rw [if_neg hji]; omega⟩

theorem Conc_run_remaining (c : connector) (sched : List (Nat × Option String)) :
    ∀ (k : Conc) (i : Nat) (pc : Pc), (Conc.run c k sched).calls[i]? = some pc →
      ∃ pc0, k.calls[i]? = some pc0 ∧
        pc.remaining ≤ pc0.remaining - (sched.map Prod.fst).count i := by
  induction sched with
  | nil =>
    intro k i pc h
    exact ⟨pc, h, by simp⟩
  | cons st rest ih =>
    intro k i pc h
    obtain ⟨j, err⟩ := st
    obtain ⟨pc1, h1, hle1⟩ := ih (k.step c j err) i pc h
    obtain ⟨pc0, h0, hle0⟩ := Conc_step_remaining c k j err i pc1 h1
    refine ⟨pc0, h0, ?_⟩
    simp only [List.map_cons, List.count_cons, beq_iff_eq]
    by_cases hji : j = i
    · rw [if_pos hji] at hle0 ⊢
      omega
    · rw [if_neg hji] at hle0 ⊢
      omega

/-- Every call is through once the schedule has given it three steps. -/
theorem Conc_run_finished (c : connector) (s : State) (n : Nat)
    (sched : List (Nat × Option String))
    (hfair : ∀ i, i < n → 3 ≤ (sched.map Prod.fst).count i) :
    ∀ pc ∈ (Conc.run c (Conc.start s n) sched).calls, pc.finished = true := by
  intro pc hpc
  obtain ⟨i, hi⟩ := List.mem_iff_getElem?.mp hpc
  obtain ⟨pc0, h0, hle⟩ := Conc_run_remaining c sched _ i pc hi
  have hlt : i < n := by
    by_contra hge
    simp only [Conc.start] at h0
    rw [List.getElem?_replicate, if_neg hge] at h0
    cases h0
  have h3 : pc0.remaining ≤ 3 := by cases pc0 <;> simp [Pc.remaining]
  have hzero : pc.remaining = 0 := by
    have := hfair i hlt
    omega
  cases pc <;> simp [Pc.remaining] at hzero <;> rfl

/-- One call that takes its three steps in a row does what lines 164-186 of
`OpenKeeperURL` do when run without interruption. -/
theorem acquire_eq_run (c : connector) (s : State) (err : Option String) :
    (Conc.run c (Conc.start s 1) [(0, err), (0, err), (0, err)]).shared = (acquire err s c).2 ∧
    (∀ x, (acquire err s c).1 = .ok x ↔
      (Conc.run c (Conc.start s 1) [(0, err), (0, err), (0, err)]).calls = [.holds x]) ∧
    (∀ msg, (acquire err s c).1 = .error (.newEngine msg) ↔
      (Conc.run c (Conc.start s 1) [(0, err), (0, err), (0, err)]).calls = [.returned msg]) := by
  cases hm : mapGet s.engines c with
  | some x0 =>
    rw [acquire_present err s c x0 hm]
    simp [Conc.run, Conc.start, Conc.step, stepCall, readCheck, hm, eq_comm]
  | none =>
    cases err with
    | some msg =>
      rw [acquire_newEngine_failed s c msg hm]
      simp [Conc.run, Conc.start, Conc.step, stepCall, readCheck, hm, NewEngine, State.log, eq_comm]
    | none =>
      rw [acquire_installed s c hm]
      simp [Conc.run, Conc.start, Conc.step, stepCall, readCheck, hm, NewEngine, State.log,
        writeCheck, eq_comm]

/-- C7, amended: take any number of concurrent calls of `OpenKeeperURL` that
resolved to connection `c`, on a registry without `c`, and any interleaving of
their read checks, constructions and write checks after which every call is
through.  Then the registry is the former one, or the former one with one
engine for `c`; it has an engine for `c` exactly when some construction
succeeded; every call that did not return the construction error goes on with
the engine of the registry; and every constructed engine either is the engine
of the registry and was not closed, or was closed and never installed. -/
theorem acquire_interleavings (c : connector) (s : State) (n : Nat)
    (sched : List (Nat × Option String)) (habs : mapGet s.engines c = none)
    (hdone : ∀ pc ∈ (Conc.run c (Conc.start s n) sched).calls, pc.finished = true) :
    ∃ evs, (Conc.run c (Conc.start s n) sched).shared.trace = s.trace ++ evs ∧
      (Conc.run c (Conc.start s n) sched).calls.length = n ∧
      ((Conc.run c (Conc.start s n) sched).shared.engines = s.engines ∨
        ∃ w, (Conc.run c (Conc.start s n) sched).shared.engines = (c, w) :: s.engines) ∧
      ((∃ w, mapGet (Conc.run c (Conc.start s n) sched).shared.engines c = some w) ↔
        ∃ x, Event.newEngine x ∈ evs) ∧
      (∀ x, Pc.holds x ∈ (Conc.run c (Conc.start s n) sched).calls →
        mapGet (Conc.run c (Conc.start s n) sched).shared.engines c = some x) ∧
      (∀ x, Event.newEngine x ∈ evs →
        (mapGet (Conc.run c (Conc.start s n) sched).shared.engines c = some x ∧
          Event.close x ∉ evs) ∨
        (mapGet (Conc.run c (Conc.start s n) sched).shared.engines c ≠ some x ∧
          Event.close x ∈ evs ∧ ∀ c1, Event.install c1 x ∉ evs)) := by
  obtain ⟨evs, hinv⟩ := ConcInv_run c s habs sched _ [] (ConcInv_start c s n)
  have hnopend : ∀ (j : Nat) x,
      (Conc.run c (Conc.start s n) sched).calls[j]? ≠ some (Pc.atWriteCheck x) := by
    intro j x hj
    have := hdone _ (List.mem_iff_getElem?.mpr ⟨j, hj⟩)
    simp [Pc.finished] at this
  have hstatus : ∀ x, Event.newEngine x ∈ evs →
      mapGet (Conc.run c (Conc.start s n) sched).shared.engines c = some x ∨
        Event.close x ∈ evs := by
    intro x hx
    rcases hinv.built_status x hx with ⟨j, hj⟩ | h | h
    · exact absurd hj (hnopend j x)
    · exact Or.inl h
    · exact Or.inr h
  have hretained : ∀ w, mapGet (Conc.run c (Conc.start s n) sched).shared.engines c = some w →
      Event.newEngine w ∈ evs ∧ Event.close w ∉ evs := by
    intro w hw
    rcases hinv.registry with ⟨h1, _⟩ | ⟨w1, h1, h2, _, h4, _⟩
    · rw [h1, habs] at hw
      cases hw
    · rw [h1, mapGet_cons_self] at hw
      cases hw
      exact ⟨h2, h4⟩
  refine ⟨evs, hinv.trace_eq, ?_, ?_, ?_, ?_, ?_⟩
  · rw [Conc_run_length]
    simp [Conc.start]
  · rcases hinv.registry with ⟨h1, _⟩ | ⟨w, h1, _⟩
    · exact Or.inl h1
    · exact Or.inr ⟨w, h1⟩
  · constructor
    · rintro ⟨w, hw⟩
      exact ⟨w, (hretained w hw).1⟩
    · rintro ⟨x, hx⟩
      rcases hstatus x hx with h | h
      · exact ⟨x, h⟩
      · exact hinv.closed_retained x h
  · intro x hx
    obtain ⟨j, hj⟩ := List.mem_iff_getElem?.mp hx
    exact hinv.holds_retained j x hj
  · intro x hx
    by_cases hm : mapGet (Conc.run c (Conc.start s n) sched).shared.engines c = some x
    · exact Or.inl ⟨hm, (hretained x hm).2⟩
    · rcases hstatus x hx with h | h
      · exact absurd h hm
      · exact Or.inr ⟨hm, h, hinv.closed_not_installed x h⟩

/-- C7, the claim as stated fails: one call whose `xorm.NewEngine` fails is
through after two steps, and the registry holds no engine for its connection. -/
theorem acquire_single_call_construction_fails :
    mapGet (State.init []).engines demoConn = none ∧
    (Conc.run demoConn (Conc.start (State.init []) 1) failingSchedule).calls =
      [.returned "sql: unknown driver"] ∧
    (∀ pc ∈ (Conc.run demoConn (Conc.start (State.init []) 1) failingSchedule).calls,
      pc.finished = true) ∧
    mapGet (Conc.run demoConn (Conc.start (State.init []) 1) failingSchedule).shared.engines
      demoConn = none ∧
    (OpenKeeperURL envNoEngine demoState otherConnKeyURL).1 =
      .error (.newEngine "sql: unknown driver") ∧
    mapGet (OpenKeeperURL envNoEngine demoState otherConnKeyURL).2.engines
      ⟨"postgres", "user=gitea dbname=other"⟩ = none := by
  decide

/-- C7 at a concrete input: two calls that both miss and both construct; the
second call stores its candidate, the first closes its own. -/
theorem acquire_interleavings_witness :
    ∃ evs, (Conc.run demoConn (Conc.start (State.init []) 2) racingSchedule).shared.trace =
        (State.init []).trace ++ evs ∧
      (Conc.run demoConn (Conc.start (State.init []) 2) racingSchedule).calls.length = 2 ∧
      ((Conc.run demoConn (Conc.start (State.init []) 2) racingSchedule).shared.engines =
          (State.init []).engines ∨
        ∃ w, (Conc.run demoConn (Conc.start (State.init []) 2) racingSchedule).shared.engines =
          (demoConn, w) :: (State.init []).engines) ∧
      ((∃ w, mapGet (Conc.run demoConn (Conc.start (State.init []) 2) racingSchedule).shared.engines
          demoConn = some w) ↔ ∃ x, Event.newEngine x ∈ evs) ∧
      (∀ x, Pc.holds x ∈ (Conc.run demoConn (Conc.start (State.init []) 2) racingSchedule).calls →
        mapGet (Conc.run demoConn (Conc.start (State.init []) 2) racingSchedule).shared.engines
          demoConn = some x) ∧
      (∀ x, Event.newEngine x ∈ evs →
        (mapGet (Conc.run demoConn (Conc.start (State.init []) 2) racingSchedule).shared.engines
            demoConn = some x ∧ Event.close x ∉ evs) ∨
        (mapGet (Conc.run demoConn (Conc.start (State.init []) 2) racingSchedule).shared.engines
            demoConn ≠ some x ∧ Event.close x ∈ evs ∧ ∀ c1, Event.install c1 x ∉ evs)) :=
  acquire_interleavings demoConn (State.init []) 2 racingSchedule (by decide) (by decide)

end Xkms
